import Mathlib

/-!
Verification of the plain-text export renderer
(`Telegram/SourceFiles/export/output/export_output_text.cpp`).

Byte strings (`QByteArray` / `Data::Utf8String`) are modelled as `List Char`.
The platform-dependent line terminator `kLineBreak` (an `#ifdef` in the
source) is threaded through as an explicit parameter `lb`, matching the
spec's description of a configurable terminator.
-/

namespace ExportText

/-- `QByteArray` / UTF-8 byte string, modelled as a list of characters. -/
abbrev Str := List Char

/-- Index of the first occurrence of `c` in `s`
(`QByteArray::indexOf(c)`; `Option.none` models the C++ return value `-1`). -/
def qIndexOf (c : Char) : Str → Option Nat
  | [] => Option.none
  | a :: s => if a = c then some 0 else (qIndexOf c s).map (· + 1)

/-- `QByteArray::indexOf(c, from)`: first occurrence of `c` at
position `start` or later. -/
def qIndexOfFrom (c : Char) (v : Str) (start : Nat) : Option Nat :=
  (qIndexOf c (v.drop start)).map (start + ·)

/-- The do-while loop of `SerializeMultiline` together with the final
partial-line emission after the loop.  `offset` and `newline` are the C++
loop variables (`newline` is the index of the next line feed).  The C++
loop terminates because the `'\n'` index strictly increases on every
iteration; here `fuel` bounds the number of iterations and is chosen large
enough (`value.length + 1`) that it never runs out. -/
def SerializeMultilineGo (lb value : Str) : Nat → Nat → Nat → Str
  | 0, _, _ => []
  | fuel + 1, offset, newline =>
    let win := decide (0 < newline) && (value.get? (newline - 1) == some '\r')
    let nlAdj := if win then newline - 1 else newline
    let line := '>' :: ' ' :: (((value.drop offset).take (nlAdj - offset)) ++ lb)
    let offsetN := newline + 1
    match qIndexOfFrom '\n' value offsetN with
    | some nl2 =>
      if 0 < nl2 then line ++ SerializeMultilineGo lb value fuel offsetN nl2
      else line ++ (if offsetN < value.length
        then '>' :: ' ' :: ((value.drop offsetN) ++ lb) else [])
    | Option.none =>
      line ++ (if offsetN < value.length
        then '>' :: ' ' :: ((value.drop offsetN) ++ lb) else [])

/-- `SerializeMultiline(appendTo, value, newline)`: the text appended to
`appendTo`, given the index `newline` of the first line feed of `value`. -/
def SerializeMultiline (lb value : Str) (newline : Nat) : Str :=
  SerializeMultilineGo lb value (value.length + 1) 0 newline

/-- `SerializeKeyValue`: one `key: value` line group per pair whose value is
non-empty; values containing a line feed are quoted via `SerializeMultiline`. -/
def SerializeKeyValue (lb : Str) : List (Str × Str) → Str
  | [] => []
  | kv :: rest =>
    (if kv.2 = [] then [] else
      kv.1 ++ (match qIndexOfFrom '\n' kv.2 0 with
        | some newline => ':' :: (lb ++ SerializeMultiline lb kv.2 newline)
        | Option.none => ':' :: ' ' :: (kv.2 ++ lb)))
    ++ SerializeKeyValue lb rest

/-- `JoinList`: concatenate the fragments with `separator` between
consecutive elements (empty for an empty list, the sole fragment for a
singleton). -/
def JoinList (separator : Str) : List Str → Str
  | [] => []
  | [x] => x
  | x :: xs => x ++ separator ++ JoinList separator xs

/-- Specification-side view of line splitting: split a string at every
line feed (the segments do not contain the terminating `'\n'`s). -/
def splitLF : Str → List Str
  | [] => [[]]
  | a :: s => if a = '\n' then [] :: splitLF s else (splitLF s).modifyHead (a :: ·)

/-- Strip one trailing carriage return (Windows-style break normalisation). -/
def stripTrailingCR (s : Str) : Str :=
  if s.getLast? = some '\r' then s.dropLast else s

/-- Specification-side view of the lines emitted by `SerializeMultiline`:
every segment that was followed by a line feed with a trailing `'\r'`
stripped, and a final segment only when it is non-empty. -/
def multilineSegs : List Str → List Str
  | [] => []
  | [last] => if last = [] then [] else [last]
  | seg :: rest => stripTrailingCR seg :: multilineSegs rest

/-- The lines of a multiline value as rendered by `SerializeMultiline`. -/
def multilineLines (v : Str) : List Str := multilineSegs (splitLF v)

/-- Number of internal line breaks of a value: line feeds that are not the
value's final character. -/
def internalLineBreaks (v : Str) : Nat := v.dropLast.count '\n'

/-- Modelled from the spec: `Data::NumberToString` renders a number as plain
decimal digits (the helper itself lives in the out-of-scope data layer). -/
def NumberToString (n : Nat) : Str := Nat.toDigits 10 n

/-- Modelled from the spec: the padded overload
`Data::NumberToString(value, digits, pad)` left-pads the decimal rendering
with the pad character up to the requested digit count. -/
def NumberToStringPad (value digits : Nat) (pad : Char) : Str :=
  List.replicate (digits - (NumberToString value).length) pad ++ NumberToString value

/-- Decimal rendering for signed values (used for geo coordinates, which are
floating point in the source; only their rendered text matters here, so they
are modelled as integers). -/
def NumberToStringInt (i : Int) : Str :=
  if i < 0 then '-' :: NumberToString i.natAbs else NumberToString i.natAbs

/-! ## Data model

The `Data::` record types consumed by the renderer are declared in
`export_data_types.h`, which is outside the given sources; they are modelled
from the spec's data-model section (§3). -/

/-- Modelled from the spec: peer id, a numeric id namespaced by kind. -/
inductive PeerId
  | user (id : Nat)
  | chat (id : Nat)
deriving DecidableEq

/-- Modelled from the spec: a user carries a display name, a username and a
bot flag (the display-name assembly is done by the out-of-scope data layer). -/
structure User where
  name : Str
  username : Str
  isBot : Bool
deriving DecidableEq

/-- Modelled from the spec: a chat carries a display name, a username and a
broadcast flag. -/
structure Chat where
  name : Str
  username : Str
  broadcast : Bool
deriving DecidableEq

/-- Modelled from the spec: a peer is a union of user or chat. -/
inductive Peer
  | user (u : User)
  | chat (c : Chat)
deriving DecidableEq

/-- The display name of a peer. -/
def Peer.name : Peer → Str
  | .user u => u.name
  | .chat c => c.name

/-- Modelled from the spec: why an on-disk asset was not exported. -/
inductive SkipReason
  | None
  | Unavailable
  | FileSize
  | FileType
deriving DecidableEq

/-- Modelled from the spec: a file reference is a relative path plus a skip
reason. -/
structure File where
  relativePath : Str
  skipReason : SkipReason
deriving DecidableEq

/-- Modelled from the spec: an image is a file reference with dimensions. -/
structure Image where
  width : Nat
  height : Nat
  file : File
deriving DecidableEq

/-- Modelled from the spec: a photo wraps an image. -/
structure Photo where
  image : Image
deriving DecidableEq

/-- Modelled from the spec: a document attachment with its sub-kind flags. -/
structure Document where
  file : File
  isSticker : Bool
  isAnimated : Bool
  isVideoMessage : Bool
  isVoiceMessage : Bool
  isVideoFile : Bool
  isAudioFile : Bool
  stickerEmoji : Str
  songPerformer : Str
  songTitle : Str
  mime : Str
  duration : Nat
  width : Nat
  height : Nat
deriving DecidableEq

/-- Modelled from the spec: a shared contact card. -/
structure ContactInfo where
  firstName : Str
  lastName : Str
  phoneNumber : Str
deriving DecidableEq

/-- Modelled from the spec: a geographic point; the coordinates are `float64`
in the source and are modelled as integers, since only their decimal
rendering matters for the renderer. -/
structure GeoPoint where
  latitude : Int
  longitude : Int
  valid : Bool
deriving DecidableEq

/-- Modelled from the spec: a venue (a titled location). -/
structure Venue where
  point : GeoPoint
  title : Str
  address : Str
deriving DecidableEq

/-- Modelled from the spec: a game attachment. -/
structure Game where
  title : Str
  description : Str
  shortName : Str
  botId : Nat
deriving DecidableEq

/-- Modelled from the spec: an invoice attachment. -/
structure Invoice where
  title : Str
  description : Str
  currency : Str
  amount : Int
  receiptMsgId : Nat
deriving DecidableEq

/-- Modelled from the spec: the media tagged variant (`noneType` is
`base::none_type`, the absent alternative). -/
inductive MediaContent
  | photo (p : Photo)
  | document (d : Document)
  | contactInfo (c : ContactInfo)
  | geoPoint (g : GeoPoint)
  | venue (v : Venue)
  | game (g : Game)
  | invoice (i : Invoice)
  | unsupportedMedia
  | noneType
deriving DecidableEq

/-- Whether the media variant is `UnsupportedMedia`
(`content.is<UnsupportedMedia>()`). -/
def MediaContent.isUnsupported : MediaContent → Bool
  | .unsupportedMedia => true
  | _ => false

/-- Modelled from the spec: a media attachment with its self-destruct TTL
(`0` means absent). -/
structure Media where
  content : MediaContent
  ttl : Nat
deriving DecidableEq

/-- Modelled from the spec: the discard reason of a phone call.
`unrecognized` stands for any wire value outside the recognized set, which
the extensible wire format may deliver. -/
inductive DiscardReason
  | Busy
  | Disconnect
  | Hangup
  | Missed
  | unrecognized
deriving DecidableEq

/-- Modelled from the spec: a Telegram Passport value type; `unrecognized`
stands for any wire value outside the recognized set. -/
inductive SecureValueType
  | PersonalDetails
  | Passport
  | DriverLicense
  | IdentityCard
  | InternalPassport
  | Address
  | UtilityBill
  | BankStatement
  | RentalAgreement
  | PassportRegistration
  | TemporaryRegistration
  | Phone
  | Email
  | unrecognized
deriving DecidableEq

/-- Modelled from the spec: the service-action tagged variant of a message
(`noneType` is `base::none_type`, the absent alternative). -/
inductive ActionContent
  | chatCreate (title : Str) (userIds : List Nat)
  | chatEditTitle (title : Str)
  | chatEditPhoto (photo : Photo)
  | chatDeletePhoto
  | chatAddUser (userIds : List Nat)
  | chatDeleteUser (userId : Nat)
  | chatJoinedByLink (inviterId : Nat)
  | channelCreate (title : Str)
  | chatMigrateTo
  | channelMigrateFrom (title : Str)
  | pinMessage
  | historyClear
  | gameScore (score : Nat)
  | paymentSent (currency : Str) (amount : Int)
  | phoneCall (duration : Nat) (discardReason : DiscardReason)
  | screenshotTaken
  | customAction (message : Str)
  | botAllowed (domain : Str)
  | secureValuesSent (types : List SecureValueType)
  | noneType
deriving DecidableEq

/-- Modelled from the spec: one message of the in-memory model.  The C++
`action.content` variant is flattened into the `action` field.  The numeric
reference fields use `0` for "absent" exactly as the `int32` ids do in the
source; `forwardedFromId` is a `PeerId` whose absent value (`0`) is modelled
as `Option.none`. -/
structure Message where
  id : Nat
  date : Nat
  edited : Nat
  fromId : Nat
  replyToMsgId : Nat
  viaBotId : Nat
  forwardedFromId : Option PeerId
  signature : Str
  text : Str
  action : ActionContent
  media : Media
deriving DecidableEq

/-- `FormatFilePath`: the relative path of a file reference. -/
def FormatFilePath (file : File) : Str := file.relativePath

/-! ## The message serializer (`SerializeMessage`)

A key/value field of the `values` vector. -/

abbrev Field := Str × Str

/-- The `push` helper of `SerializeMessage`: append the pair only when the
value is non-empty. -/
def pushKV (key value : Str) : List Field :=
  if value = [] then [] else [(key, value)]

/-- The `peer` lookup of `SerializeMessage`: map lookup with the static
empty `Peer{ User() }` fallback. -/
def peerAt (peers : PeerId → Option Peer) (peerId : PeerId) : Peer :=
  (peers peerId).getD (Peer.user ⟨[], [], false⟩)

/-- The `user` lookup of `SerializeMessage`: `peer(UserPeerId(userId)).user()`
with the static empty `User()` fallback. -/
def userAt (peers : PeerId → Option Peer) (userId : Nat) : User :=
  match peerAt peers (PeerId.user userId) with
  | .user u => u
  | .chat _ => ⟨[], [], false⟩

/-- `wrapPeerName`: the peer's display name or the unknown-peer placeholder. -/
def wrapPeerName (peers : PeerId → Option Peer) (peerId : PeerId) : Str :=
  if (peerAt peers peerId).name = [] then ("(unknown peer)").toList
  else (peerAt peers peerId).name

/-- `wrapUserName`: the user's display name or the unknown-user placeholder. -/
def wrapUserName (peers : PeerId → Option Peer) (userId : Nat) : Str :=
  if (userAt peers userId).name = [] then ("(unknown user)").toList
  else (userAt peers userId).name

/-- `pushFrom(label)`: the sender-name field, present only when the message
has a sender id. -/
def pushFrom (peers : PeerId → Option Peer) (msg : Message) (label : Str) :
    List Field :=
  if msg.fromId ≠ 0 then pushKV label (wrapUserName peers msg.fromId) else []

/-- `pushReplyToMsgId(label)`: the reply-target field, present only when the
message has a reply target. -/
def pushReplyToMsgId (msg : Message) (label : Str) : List Field :=
  if msg.replyToMsgId ≠ 0 then
    pushKV label (("ID-").toList ++ NumberToString msg.replyToMsgId)
  else []

/-- `pushUserNames`: a singular field for exactly one entry, a plural
comma-joined field for several, nothing for none. -/
def pushUserNames (peers : PeerId → Option Peer) (data : List Nat)
    (labelOne labelMany : Str) : List Field :=
  let list := data.map (wrapUserName peers)
  if list.length = 1 then pushKV labelOne list.headI
  else if list ≠ [] then pushKV labelMany (JoinList ((", ").toList) list)
  else []

/-- `pushTTL(label)`: the self-destruct field, present only for a non-zero
TTL. -/
def pushTTL (msg : Message) (label : Str) : List Field :=
  if msg.media.ttl ≠ 0 then
    pushKV label (NumberToString msg.media.ttl ++ (" sec.").toList)
  else []

/-- The value rendered by `pushPath` for a file reference: the relative path
when the skip reason is `None`, otherwise a bracketed placeholder optionally
prefixed by `name`.  `Option.none` models the fatal `Expects` precondition
failure (empty relative path together with skip reason `None`); the
`Unexpected` after the switch is unreachable because the match on the
four-valued reason is exhaustive. -/
def pushPathValue (file : File) (name : Str) : Option Str :=
  if file.relativePath ≠ [] ∨ file.skipReason ≠ SkipReason.None then
    some (
      let pre := if name = [] then [] else name ++ [' ']
      match file.skipReason with
      | SkipReason.Unavailable => pre ++ ("(file unavailable)").toList
      | SkipReason.FileSize => pre ++ ("(file too large)").toList
      | SkipReason.FileType => pre ++ ("(file skipped)").toList
      | SkipReason.None => FormatFilePath file)
  else Option.none

/-- `pushPath(file, label, name)` as the field list it contributes. -/
def pushPathFields (file : File) (label : Str) (name : Str) :
    Option (List Field) :=
  (pushPathValue file name).map (fun v => pushKV label v)

/-- `pushPhoto(image)`: the photo path plus dimensions when both are known. -/
def pushPhotoFields (image : Image) : Option (List Field) :=
  (pushPathFields image.file (("Photo").toList) []).map (fun pp =>
    pp ++ (if image.width ≠ 0 ∧ image.height ≠ 0 then
      pushKV (("Width").toList) (NumberToString image.width)
        ++ pushKV (("Height").toList) (NumberToString image.height)
    else []))

/-- The discard-reason switch of the `ActionPhoneCall` handler (empty string
for an unrecognized wire value). -/
def discardReasonString : DiscardReason → Str
  | .Busy => ("Busy").toList
  | .Disconnect => ("Disconnect").toList
  | .Hangup => ("Hangup").toList
  | .Missed => ("Missed").toList
  | .unrecognized => []

/-- The type switch of the `ActionSecureValuesSent` handler (empty string
for an unrecognized wire value). -/
def secureValueTypeString : SecureValueType → Str
  | .PersonalDetails => ("Personal details").toList
  | .Passport => ("Passport").toList
  | .DriverLicense => ("Driver license").toList
  | .IdentityCard => ("Identity card").toList
  | .InternalPassport => ("Internal passport").toList
  | .Address => ("Address information").toList
  | .UtilityBill => ("Utility bill").toList
  | .BankStatement => ("Bank statement").toList
  | .RentalAgreement => ("Rental agreement").toList
  | .PassportRegistration => ("Passport registration").toList
  | .TemporaryRegistration => ("Temporary registration").toList
  | .Phone => ("Phone number").toList
  | .Email => ("Email").toList
  | .unrecognized => []

/-- The `message.action.content.match` of `SerializeMessage`: the fields
contributed by the action variant.  `Option.none` models a fatal contract
failure inside a handler (only `pushPath` can fail). -/
def actionFields (peers : PeerId → Option Peer)
    (fmtMoney : Int → Str → Str) (msg : Message) : Option (List Field) :=
  let pushActor := pushFrom peers msg (("Actor").toList)
  let pushAction := fun (action : Str) => pushKV (("Action").toList) action
  match msg.action with
  | .chatCreate title userIds =>
    some (pushActor ++ pushAction (("Create group").toList)
      ++ pushKV (("Title").toList) title
      ++ pushUserNames peers userIds (("Member").toList) (("Members").toList))
  | .chatEditTitle title =>
    some (pushActor ++ pushAction (("Edit group title").toList)
      ++ pushKV (("New title").toList) title)
  | .chatEditPhoto photo =>
    (pushPhotoFields photo.image).map (fun ph =>
      pushActor ++ pushAction (("Edit group photo").toList) ++ ph)
  | .chatDeletePhoto =>
    some (pushActor ++ pushAction (("Delete group photo").toList))
  | .chatAddUser userIds =>
    some (pushActor ++ pushAction (("Invite members").toList)
      ++ pushUserNames peers userIds (("Member").toList) (("Members").toList))
  | .chatDeleteUser userId =>
    some (pushActor ++ pushAction (("Remove members").toList)
      ++ pushKV (("Member").toList) (wrapUserName peers userId))
  | .chatJoinedByLink inviterId =>
    some (pushActor ++ pushAction (("Join group by link").toList)
      ++ pushKV (("Inviter").toList) (wrapUserName peers inviterId))
  | .channelCreate title =>
    some (pushActor ++ pushAction (("Create channel").toList)
      ++ pushKV (("Title").toList) title)
  | .chatMigrateTo =>
    some (pushActor ++ pushAction (("Migrate this group to supergroup").toList))
  | .channelMigrateFrom title =>
    some (pushActor
      ++ pushAction (("Migrate this supergroup from group").toList)
      ++ pushKV (("Title").toList) title)
  | .pinMessage =>
    some (pushActor ++ pushAction (("Pin message").toList)
      ++ pushReplyToMsgId msg (("Message").toList))
  | .historyClear =>
    some (pushActor ++ pushAction (("Clear history").toList))
  | .gameScore score =>
    some (pushActor ++ pushAction (("Score in a game").toList)
      ++ pushReplyToMsgId msg (("Game message").toList)
      ++ pushKV (("Score").toList) (NumberToString score))
  | .paymentSent currency amount =>
    some (pushAction (("Send payment").toList)
      ++ pushKV (("Amount").toList) (fmtMoney amount currency)
      ++ pushReplyToMsgId msg (("Invoice message").toList))
  | .phoneCall duration discardReason =>
    some (pushActor ++ pushAction (("Phone call").toList)
      ++ (if duration ≠ 0 then
          pushKV (("Duration").toList)
            (NumberToString duration ++ (" sec.").toList)
        else [])
      ++ pushKV (("Discard reason").toList) (discardReasonString discardReason))
  | .screenshotTaken =>
    some (pushActor ++ pushAction (("Take screenshot").toList))
  | .customAction message =>
    some (pushActor ++ pushKV (("Information").toList) message)
  | .botAllowed domain =>
    some (pushAction (("Allow sending messages").toList)
      ++ pushKV (("Reason").toList)
        (("Login on \"").toList ++ domain ++ [.ofNat 34]))
  | .secureValuesSent types =>
    some (pushAction (("Send Telegram Passport values").toList)
      ++ (let list := types.map secureValueTypeString
        if list.length = 1 then pushKV (("Value").toList) list.headI
        else if list ≠ [] then
          pushKV (("Values").toList) (JoinList ((", ").toList) list)
        else []))
  | .noneType => some []

/-- The block guarded by `if (!message.action.content)`: sender, author
signature, forwarded-from, reply target and via-bot fields, emitted only
when the message carries no action. -/
def noActionFields (peers : PeerId → Option Peer) (msg : Message) :
    List Field :=
  if msg.action = ActionContent.noneType then
    pushFrom peers msg (("From").toList)
    ++ pushKV (("Author").toList) msg.signature
    ++ (match msg.forwardedFromId with
      | some peerId => pushKV (("Forwarded from").toList) (wrapPeerName peers peerId)
      | Option.none => [])
    ++ pushReplyToMsgId msg (("Reply to message").toList)
    ++ (if msg.viaBotId ≠ 0 then
        pushKV (("Via").toList) (userAt peers msg.viaBotId).username
      else [])
  else []

/-- The `message.media.content.match` of `SerializeMessage`: the fields
contributed by the media variant.  `Option.none` models a fatal contract
failure: a `pushPath` precondition failure, or the `Unexpected` of the
`UnsupportedMedia` handler (unreachable from `SerializeMessage`, which
returns before the match for unsupported media). -/
def mediaFields (lb : Str) (fmtMoney : Int → Str → Str)
    (fmtPhone : Str → Str) (peers : PeerId → Option Peer)
    (internalLinksDomain : Str) (msg : Message) : Option (List Field) :=
  match msg.media.content with
  | .photo photo =>
    (pushPhotoFields photo.image).map (fun pp =>
      pp ++ pushTTL msg (("Self destruct period").toList))
  | .document d =>
    (if d.isSticker then
      (pushPathFields d.file (("Sticker").toList) []).map (fun pp =>
        pp ++ pushKV (("Emoji").toList) d.stickerEmoji)
    else if d.isVideoMessage then
      pushPathFields d.file (("Video message").toList) []
    else if d.isVoiceMessage then
      pushPathFields d.file (("Voice message").toList) []
    else if d.isAnimated then
      pushPathFields d.file (("Animation").toList) []
    else if d.isVideoFile then
      pushPathFields d.file (("Video file").toList) []
    else if d.isAudioFile then
      (pushPathFields d.file (("Audio file").toList) []).map (fun pp =>
        pp ++ pushKV (("Performer").toList) d.songPerformer
          ++ pushKV (("Title").toList) d.songTitle)
    else
      pushPathFields d.file (("File").toList) []).map (fun start =>
    start
    ++ (if d.isSticker = false then pushKV (("Mime type").toList) d.mime else [])
    ++ (if d.duration ≠ 0 then
        pushKV (("Duration").toList)
          (NumberToString d.duration ++ (" sec.").toList)
      else [])
    ++ (if d.width ≠ 0 ∧ d.height ≠ 0 then
        pushKV (("Width").toList) (NumberToString d.width)
          ++ pushKV (("Height").toList) (NumberToString d.height)
      else [])
    ++ pushTTL msg (("Self destruct period").toList))
  | .contactInfo c =>
    some (pushKV (("Contact information").toList) (SerializeKeyValue lb [
      ((("First name").toList), c.firstName),
      ((("Last name").toList), c.lastName),
      ((("Phone number").toList), fmtPhone c.phoneNumber)]))
  | .geoPoint g =>
    some (pushKV (("Location").toList)
        (if g.valid then SerializeKeyValue lb [
            ((("Latitude").toList), NumberToStringInt g.latitude),
            ((("Longitude").toList), NumberToStringInt g.longitude)]
          else ("(empty value)").toList)
      ++ pushTTL msg (("Live location period").toList))
  | .venue v =>
    some (pushKV (("Place name").toList) v.title
      ++ pushKV (("Address").toList) v.address
      ++ (if v.point.valid then
          pushKV (("Location").toList) (SerializeKeyValue lb [
            ((("Latitude").toList), NumberToStringInt v.point.latitude),
            ((("Longitude").toList), NumberToStringInt v.point.longitude)])
        else []))
  | .game g =>
    some (pushKV (("Game").toList) g.title
      ++ pushKV (("Description").toList) g.description
      ++ (if g.botId ≠ 0 ∧ g.shortName ≠ [] then
          (let bot := userAt peers g.botId
          if bot.isBot ∧ bot.username ≠ [] then
            pushKV (("Link").toList) (internalLinksDomain ++ bot.username
              ++ ("?game=").toList ++ g.shortName)
          else [])
        else []))
  | .invoice i =>
    some (pushKV (("Invoice").toList) (SerializeKeyValue lb [
      ((("Title").toList), i.title),
      ((("Description").toList), i.description),
      ((("Amount").toList), fmtMoney i.amount i.currency),
      ((("Receipt message").toList), (if i.receiptMsgId ≠ 0 then
        ("ID-").toList ++ NumberToString i.receiptMsgId else []))]))
  | .unsupportedMedia => Option.none
  | .noneType => some []

/-- The `values` vector of `SerializeMessage` after all pushes, in source
order: the fixed ID/Date/Edited entries, the action fields, the no-action
block, the media fields, and the free-text body. -/
def messageFields (lb : Str) (fmtDate : Nat → Str) (fmtMoney : Int → Str → Str)
    (fmtPhone : Str → Str) (msg : Message) (peers : PeerId → Option Peer)
    (internalLinksDomain : Str) : Option (List Field) := do
  let af ← actionFields peers fmtMoney msg
  let mf ← mediaFields lb fmtMoney fmtPhone peers internalLinksDomain msg
  pure ([((("ID").toList), NumberToString msg.id),
      ((("Date").toList), fmtDate msg.date),
      ((("Edited").toList), fmtDate msg.edited)]
    ++ af ++ noActionFields peers msg ++ mf
    ++ pushKV (("Text").toList) msg.text)

/-- The fixed incompatibility notice returned for unsupported media. -/
def unsupportedNotice : Str :=
  ("Error! This message is not supported by this version of Telegram Desktop. Please update the application.").toList

/-- `SerializeMessage`: the rendered text of one message.  `Option.none`
models a fatal contract failure while building the field list. -/
def SerializeMessage (lb : Str) (fmtDate : Nat → Str)
    (fmtMoney : Int → Str → Str) (fmtPhone : Str → Str) (msg : Message)
    (peers : PeerId → Option Peer) (internalLinksDomain : Str) : Option Str :=
  if msg.media.content.isUnsupported then some unsupportedNotice
  else (messageFields lb fmtDate fmtMoney fmtPhone msg peers
    internalLinksDomain).map (SerializeKeyValue lb)

/-! ## The chat portion of the writer state machine -/

/-- Modelled from the spec: the dialog type enum. -/
inductive DialogType
  | Unknown
  | Personal
  | Bot
  | PrivateGroup
  | PublicGroup
  | PrivateChannel
  | PublicChannel
deriving DecidableEq

/-- Modelled from the spec: a dialog descriptor. -/
structure DialogInfo where
  relativePath : Str
  name : Str
  type : DialogType
  onlyMyMessages : Bool
deriving DecidableEq

/-- Modelled from the spec: one bounded slice of messages together with its
peer lookup table. -/
structure MessagesSlice where
  list : List Message
  peers : PeerId → Option Peer

/-- The zero-padded sequence number computed by `TextWriter::writeChatStart`:
`digits` is the length of the decimal rendering of `dialogsCount - 1`, and
the emitted number is the pre-incremented one-based index padded with `'0'`.
`dialogIndex` is the zero-based count of earlier `writeChatStart` calls. -/
def writeChatStartNumber (dialogsCount dialogIndex : Nat) : Str :=
  NumberToStringPad (dialogIndex + 1)
    ((NumberToString (dialogsCount - 1)).length) '0'

/-- The text a `writeChatSlice` call renders for one slice: the serialized
messages joined by the line terminator. -/
def renderChatSlice (lb : Str) (fmtDate : Nat → Str)
    (fmtMoney : Int → Str → Str) (fmtPhone : Str → Str)
    (internalLinksDomain : Str) (slice : MessagesSlice) : Option Str := do
  let blocks ← slice.list.mapM (fun m =>
    SerializeMessage lb fmtDate fmtMoney fmtPhone m slice.peers
      internalLinksDomain)
  pure (JoinList lb blocks)

/-- `TextWriter::writeChatSlice`: append the rendered slice to the open
per-dialog file, preceded by one line terminator unless the file is still
empty.  `File::empty()` is modelled from the spec as "no bytes have been
written to the freshly opened file"; `chatContent` is that file's content. -/
def writeChatSliceStep (lb : Str) (fmtDate : Nat → Str)
    (fmtMoney : Int → Str → Str) (fmtPhone : Str → Str)
    (internalLinksDomain : Str) (chatContent : Option Str)
    (slice : MessagesSlice) : Option Str := do
  let content ← chatContent
  let full ← renderChatSlice lb fmtDate fmtMoney fmtPhone
    internalLinksDomain slice
  pure (content ++ (if content = [] then full else lb ++ full))

/-- The per-dialog file content after a sequence of `writeChatSlice` calls
on a freshly opened (empty) file. -/
def chatFileAfterSlices (lb : Str) (fmtDate : Nat → Str)
    (fmtMoney : Int → Str → Str) (fmtPhone : Str → Str)
    (internalLinksDomain : Str) (slices : List MessagesSlice) : Option Str :=
  slices.foldl
    (writeChatSliceStep lb fmtDate fmtMoney fmtPhone internalLinksDomain)
    (some [])

/-- The `TypeString` switch of `TextWriter::writeChatEnd`. -/
def TypeString : DialogType → Str
  | .Unknown => ("(unknown)").toList
  | .Personal => ("Personal chat").toList
  | .Bot => ("Bot chat").toList
  | .PrivateGroup => ("Private group").toList
  | .PublicGroup => ("Public group").toList
  | .PrivateChannel => ("Private channel").toList
  | .PublicChannel => ("Public channel").toList

/-- The `NameString` switch of `TextWriter::writeChatEnd`: type-specific
placeholder when the dialog name is empty. -/
def NameString (name : Str) (type : DialogType) : Str :=
  if name ≠ [] then name
  else match type with
  | .Unknown => ("(unknown)").toList
  | .Personal => ("(deleted user)").toList
  | .Bot => ("(deleted bot)").toList
  | .PrivateGroup => ("(deleted group)").toList
  | .PublicGroup => ("(deleted group)").toList
  | .PrivateChannel => ("(deleted channel)").toList
  | .PublicChannel => ("(deleted channel)").toList

/-- The summary block written to the chats file by
`TextWriter::writeChatEnd`, given the dialog descriptor and the number of
messages written by the slice calls of the session. -/
def writeChatEndBlock (lb : Str) (dialog : DialogInfo)
    (messagesCount : Nat) : Str :=
  SerializeKeyValue lb [
    ((("Name").toList), NameString dialog.name dialog.type),
    ((("Type").toList), TypeString dialog.type),
    ((if dialog.onlyMyMessages then ("Outgoing messages count").toList
      else ("Messages count").toList), NumberToString messagesCount),
    ((("Content").toList), (if messagesCount > 0 then
      dialog.relativePath ++ ("messages.txt").toList else []))]
  ++ lb

/-! ## Specification-side classifications used by individual claims -/

/-- The action kinds whose handler begins with `pushActor()`.  In the source
the actor is omitted by the payment-sent, bot-allowed and secure-values-sent
handlers (and there is no actor for an absent action). -/
def actionEmitsActor : ActionContent → Bool
  | .paymentSent _ _ => false
  | .botAllowed _ => false
  | .secureValuesSent _ => false
  | .noneType => false
  | _ => true

/-- The shared path-rendering rule as the spec words it: the relative path
when the skip reason is `None`, otherwise a bracketed placeholder specific
to the reason, optionally prefixed by the human label. -/
def specPathRendering (file : File) (name : Str) : Str :=
  let pre := if name = [] then [] else name ++ [' ']
  match file.skipReason with
  | SkipReason.None => file.relativePath
  | SkipReason.Unavailable => pre ++ ("(file unavailable)").toList
  | SkipReason.FileSize => pre ++ ("(file too large)").toList
  | SkipReason.FileType => pre ++ ("(file skipped)").toList

/-- The five field keys that only the no-action block can produce. -/
def noActionOnlyKeys : List Str :=
  [("From").toList, ("Author").toList, ("Forwarded from").toList,
    ("Reply to message").toList, ("Via").toList]

/-! ## Sample inputs shared by concrete witnesses -/

/-- A date formatter for concrete witnesses (plain decimal, no line feeds). -/
def sampleFmtDate : Nat → Str := fun n => NumberToString n

/-- A money formatter for concrete witnesses. -/
def sampleFmtMoney : Int → Str → Str :=
  fun amount currency => NumberToStringInt amount ++ currency

/-- A phone formatter for concrete witnesses. -/
def sampleFmtPhone : Str → Str := fun s => s

/-- An empty peer table for concrete witnesses. -/
def samplePeers : PeerId → Option Peer := fun _ => Option.none

/-! ## Helper lemmas -/

theorem toDigitsCore_ne_nil (b : Nat) :
    ∀ (fuel n : Nat) (acc : List Char), acc ≠ [] →
      Nat.toDigitsCore b fuel n acc ≠ [] := by
  intro fuel
  induction fuel with
  | zero => intro n acc h; simpa [Nat.toDigitsCore] using h
  | succ f ih =>
    intro n acc h
    simp only [Nat.toDigitsCore]
    split
    · simp
    · exact ih _ _ (by simp)

theorem NumberToString_ne_nil (n : Nat) : NumberToString n ≠ [] := by
  show Nat.toDigits 10 n ≠ []
  unfold Nat.toDigits
  simp only [Nat.toDigitsCore]
  split
  · simp
  · exact toDigitsCore_ne_nil 10 _ _ _ (by simp)

theorem NumberToStringInt_ne_nil (i : Int) : NumberToStringInt i ≠ [] := by
  unfold NumberToStringInt
  split
  · simp
  · exact NumberToString_ne_nil _

theorem wrapUserName_ne_nil (peers : PeerId → Option Peer) (userId : Nat) :
    wrapUserName peers userId ≠ [] := by
  unfold wrapUserName
  split <;> simp_all

theorem wrapPeerName_ne_nil (peers : PeerId → Option Peer) (peerId : PeerId) :
    wrapPeerName peers peerId ≠ [] := by
  unfold wrapPeerName
  split <;> simp_all

theorem pushKV_of_ne_nil {v : Str} (k : Str) (h : v ≠ []) :
    pushKV k v = [(k, v)] := by
  simp [pushKV, h]

@[simp]
theorem pushKV_wrapUserName (k : Str) (peers : PeerId → Option Peer)
    (userId : Nat) : pushKV k (wrapUserName peers userId)
      = [(k, wrapUserName peers userId)] :=
  pushKV_of_ne_nil k (wrapUserName_ne_nil peers userId)

theorem qIndexOf_lt_length {c : Char} :
    ∀ {s : Str} {i : Nat}, qIndexOf c s = some i → i < s.length := by
  intro s
  induction s with
  | nil => intro i h; simp [qIndexOf] at h
  | cons a s ih =>
    intro i h
    by_cases hac : a = c
    · simp only [qIndexOf, if_pos hac] at h
      cases h
      simp
    · simp only [qIndexOf, if_neg hac] at h
      rcases Option.map_eq_some'.mp h with ⟨j, hj, rfl⟩
      simpa using Nat.succ_lt_succ (ih hj)

theorem qIndexOf_get {c : Char} :
    ∀ {s : Str} {i : Nat}, qIndexOf c s = some i → s.get? i = some c := by
  intro s
  induction s with
  | nil => intro i h; simp [qIndexOf] at h
  | cons a s ih =>
    intro i h
    by_cases hac : a = c
    · simp only [qIndexOf, if_pos hac] at h
      cases h
      simp [hac]
    · simp only [qIndexOf, if_neg hac] at h
      rcases Option.map_eq_some'.mp h with ⟨j, hj, rfl⟩
      simpa using ih hj

theorem qIndexOf_eq_none_iff {c : Char} {s : Str} :
    qIndexOf c s = Option.none ↔ c ∉ s := by
  induction s with
  | nil => simp [qIndexOf]
  | cons a s ih =>
    by_cases hac : a = c
    · subst hac
      simp [qIndexOf]
    · simp only [qIndexOf, if_neg hac, Option.map_eq_none', ih,
        List.mem_cons, not_or]
      exact ⟨fun h => ⟨fun hh => hac hh.symm, h⟩, fun h => h.2⟩

theorem qIndexOf_isSome_of_mem {c : Char} {s : Str} (h : c ∈ s) :
    ∃ i, qIndexOf c s = some i := by
  cases hq : qIndexOf c s with
  | none => exact absurd (qIndexOf_eq_none_iff.mp hq) (by simp [h])
  | some i => exact ⟨i, rfl⟩

theorem qIndexOf_not_mem_take {c : Char} :
    ∀ {s : Str} {i : Nat}, qIndexOf c s = some i → c ∉ s.take i := by
  intro s
  induction s with
  | nil => intro i h; simp [qIndexOf] at h
  | cons a s ih =>
    intro i h
    by_cases hac : a = c
    · simp only [qIndexOf, if_pos hac] at h
      cases h
      simp
    · simp only [qIndexOf, if_neg hac] at h
      rcases Option.map_eq_some'.mp h with ⟨j, hj, rfl⟩
      simp only [List.take_succ_cons, List.mem_cons, not_or]
      exact ⟨fun hh => hac hh.symm, ih hj⟩

theorem splitLF_ne_nil (s : Str) : splitLF s ≠ [] := by
  induction s with
  | nil => simp [splitLF]
  | cons a s ih =>
    simp only [splitLF]
    split
    · simp
    · cases h : splitLF s with
      | nil => exact absurd h ih
      | cons b t => simp [List.modifyHead_cons]

theorem splitLF_of_qIndexOf_some :
    ∀ {s : Str} {i : Nat}, qIndexOf '\n' s = some i →
      splitLF s = s.take i :: splitLF (s.drop (i + 1)) := by
  intro s
  induction s with
  | nil => intro i h; simp [qIndexOf] at h
  | cons a s ih =>
    intro i h
    by_cases hac : a = '\n'
    · subst hac
      simp only [qIndexOf, if_pos rfl] at h
      cases h
      simp [splitLF]
    · simp only [qIndexOf, if_neg hac] at h
      rcases Option.map_eq_some'.mp h with ⟨j, hj, rfl⟩
      simp only [splitLF, if_neg hac, ih hj, List.modifyHead_cons,
        List.take_succ_cons, List.drop_succ_cons]

theorem splitLF_of_not_mem {s : Str} (h : '\n' ∉ s) : splitLF s = [s] := by
  induction s with
  | nil => simp [splitLF]
  | cons a s ih =>
    have h1 : a ≠ '\n' := by intro hh; exact h (by simp [hh])
    have h2 : '\n' ∉ s := by intro hh; exact h (by simp [hh])
    simp [splitLF, h1, ih h2, List.modifyHead_cons]

theorem multilineSegs_cons_of_ne_nil {l : List Str} (seg : Str)
    (h : l ≠ []) :
    multilineSegs (seg :: l) = stripTrailingCR seg :: multilineSegs l := by
  cases l with
  | nil => exact absurd rfl h
  | cons b t => rfl

theorem multilineLines_cons_split {s : Str} {i : Nat}
    (h : qIndexOf '\n' s = some i) :
    multilineLines s
      = stripTrailingCR (s.take i) :: multilineLines (s.drop (i + 1)) := by
  unfold multilineLines
  rw [splitLF_of_qIndexOf_some h,
    multilineSegs_cons_of_ne_nil _ (splitLF_ne_nil _)]

theorem multilineLines_of_not_mem {s : Str} (h : '\n' ∉ s) :
    multilineLines s = if s = [] then [] else [s] := by
  unfold multilineLines
  rw [splitLF_of_not_mem h]
  rfl

theorem SerializeMultilineGo_eq (lb v : Str) :
    ∀ (fuel offset newline : Nat),
      v.length - newline < fuel →
      (offset = 0 ∨ v.get? (offset - 1) = some '\n') →
      qIndexOfFrom '\n' v offset = some newline →
      SerializeMultilineGo lb v fuel offset newline
        = ((multilineLines (v.drop offset)).map
            (fun s => '>' :: ' ' :: (s ++ lb))).flatten := by
  intro fuel
  induction fuel with
  | zero => intro offset newline hfuel _ _; omega
  | succ f ih =>
    intro offset newline hfuel hoff hq
    rcases Option.map_eq_some'.mp hq with ⟨i, hqi, hni⟩
    subst hni
    have hi : i < (v.drop offset).length := qIndexOf_lt_length hqi
    have hgi : (v.drop offset).get? i = some '\n' := qIndexOf_get hqi
    have hlen : (v.drop offset).length = v.length - offset :=
      List.length_drop _ _
    have hoffLen : offset + i < v.length := by omega
    have hgiv : v.get? (offset + i) = some '\n' := by
      rw [← List.get?_drop]; exact hgi
    have hlen2 : 0 < i → ((v.drop offset).take i).length = i := by
      intro hipos
      simp only [List.length_take]
      omega
    have hgl : 0 < i → ((v.drop offset).take i).getLast?
        = (v.drop offset).get? (i - 1) := by
      intro hipos
      rw [List.getLast?_eq_getElem?, hlen2 hipos, ← List.get?_eq_getElem?,
        List.get?_take (by omega : i - 1 < i)]
    -- the emitted segment is the stripped split segment
    have hline : (v.drop offset).take
        ((if (decide (0 < offset + i)
            && (v.get? (offset + i - 1) == some '\r')) = true
          then offset + i - 1 else offset + i) - offset)
        = stripTrailingCR ((v.drop offset).take i) := by
      split_ifs with hwin
      · simp only [Bool.and_eq_true, decide_eq_true_eq, beq_iff_eq] at hwin
        obtain ⟨hpos, hr⟩ := hwin
        have hipos : 0 < i := by
          rcases Nat.eq_zero_or_pos i with h0 | h
          · exfalso
            subst h0
            rcases hoff with h0 | hN
            · omega
            · rw [Nat.add_zero] at hr
              rw [hN] at hr
              exact absurd (Option.some.inj hr) (by decide)
          · exact h
        have hlast : ((v.drop offset).take i).getLast? = some '\r' := by
          rw [hgl hipos]
          rw [show offset + i - 1 = offset + (i - 1) from by omega,
            ← List.get?_drop] at hr
          exact hr
        unfold stripTrailingCR
        rw [if_pos hlast, List.dropLast_eq_take, hlen2 hipos, List.take_take]
        congr 1
        omega
      · simp only [Bool.and_eq_true, decide_eq_true_eq, beq_iff_eq,
          not_and] at hwin
        have hlast : ((v.drop offset).take i).getLast? ≠ some '\r' := by
          rcases Nat.eq_zero_or_pos i with h0 | hipos
          · subst h0
            simp
          · rw [hgl hipos]
            have hne := hwin (by omega)
            rw [show offset + i - 1 = offset + (i - 1) from by omega,
              ← List.get?_drop] at hne
            exact hne
        unfold stripTrailingCR
        rw [if_neg hlast]
        congr 1
        omega
    -- the remaining suffix
    have hdropN : (v.drop offset).drop (i + 1) = v.drop (offset + i + 1) := by
      rw [List.drop_drop]
      congr 1
    have hsplit : multilineLines (v.drop offset)
        = stripTrailingCR ((v.drop offset).take i)
          :: multilineLines (v.drop (offset + i + 1)) := by
      rw [multilineLines_cons_split hqi, hdropN]
    simp only [SerializeMultilineGo]
    rw [hline, hsplit]
    simp only [List.map_cons, List.flatten_cons]
    rcases hnext : qIndexOfFrom '\n' v (offset + i + 1) with _ | nl2
    · -- no further line feed: at most one final partial line
      simp only [hnext]
      have hnm : '\n' ∉ v.drop (offset + i + 1) :=
        qIndexOf_eq_none_iff.mp (Option.map_eq_none'.mp hnext)
      rw [multilineLines_of_not_mem hnm]
      by_cases hlt : offset + i + 1 < v.length
      · have hne : v.drop (offset + i + 1) ≠ [] := by
          intro hh
          have := List.drop_eq_nil_iff_le.mp hh
          omega
        rw [if_neg hne, if_pos hlt]
        simp
      · have hnil : v.drop (offset + i + 1) = [] :=
          List.drop_eq_nil_of_le (by omega)
        rw [if_pos hnil, if_neg hlt]
        simp
    · -- a further line feed: the loop continues
      simp only [hnext]
      rcases Option.map_eq_some'.mp hnext with ⟨i2, hqi2, hnl2⟩
      have hi2 : i2 < (v.drop (offset + i + 1)).length := qIndexOf_lt_length hqi2
      have hlen3 : (v.drop (offset + i + 1)).length
          = v.length - (offset + i + 1) := List.length_drop _ _
      have hpos2 : 0 < nl2 := by omega
      rw [if_pos hpos2]
      rw [ih (offset + i + 1) nl2 (by omega)
        (Or.inr (by simpa using hgiv)) hnext]

theorem SerializeMultiline_eq (lb v : Str) {nl : Nat}
    (h : qIndexOf '\n' v = some nl) :
    SerializeMultiline lb v nl
      = ((multilineLines v).map (fun s => '>' :: ' ' :: (s ++ lb))).flatten := by
  have hq : qIndexOfFrom '\n' v 0 = some nl := by
    simp [qIndexOfFrom, h]
  have heq := SerializeMultilineGo_eq lb v (v.length + 1) 0 nl (by omega)
    (Or.inl rfl) hq
  simpa [SerializeMultiline] using heq

theorem multilineLines_length (v : Str) (hv : '\n' ∈ v) :
    (multilineLines v).length = internalLineBreaks v + 1 := by
  obtain ⟨i, hqi⟩ := qIndexOf_isSome_of_mem hv
  have hi : i < v.length := qIndexOf_lt_length hqi
  have hgi : v.get? i = some '\n' := qIndexOf_get hqi
  have hnp : '\n' ∉ v.take i := qIndexOf_not_mem_take hqi
  have hsplit := multilineLines_cons_split hqi
  have hvi : v[i] = '\n' := by
    have h1 : v[i]? = some v[i] := List.getElem?_eq_getElem hi
    have h2 : v[i]? = some '\n' := by rw [← List.get?_eq_getElem?]; exact hgi
    exact Option.some.inj (h1.symm.trans h2)
  have hdecomp : v = v.take i ++ '\n' :: v.drop (i + 1) := by
    conv_lhs => rw [← List.take_append_drop i v]
    rw [List.drop_eq_getElem_cons hi, hvi]
  have hc0 : (v.take i).count '\n' = 0 := List.count_eq_zero.mpr hnp
  by_cases hmem : '\n' ∈ v.drop (i + 1)
  · have ihr := multilineLines_length (v.drop (i + 1)) hmem
    rw [hsplit]
    simp only [List.length_cons, ihr]
    have hne : v.drop (i + 1) ≠ [] := by
      intro hh
      rw [hh] at hmem
      simp at hmem
    have hib : internalLineBreaks v = internalLineBreaks (v.drop (i + 1)) + 1 := by
      unfold internalLineBreaks
      conv_lhs => rw [hdecomp, ← List.singleton_append]
      rw [List.dropLast_append_of_ne_nil _ (by simp [hne]),
        List.dropLast_append_of_ne_nil _ (by simpa using hne),
        List.count_append, List.count_append, hc0]
      simp
      omega
    omega
  · rw [hsplit, multilineLines_of_not_mem hmem]
    by_cases hnil : v.drop (i + 1) = []
    · rw [if_pos hnil]
      have hib : internalLineBreaks v = 0 := by
        unfold internalLineBreaks
        rw [hdecomp, hnil, List.dropLast_concat]
        exact hc0
      simp [hib]
    · rw [if_neg hnil]
      have hcd : ((v.drop (i + 1)).dropLast).count '\n' = 0 := by
        rw [List.count_eq_zero]
        intro hh
        exact hmem (List.dropLast_subset _ hh)
      have hib : internalLineBreaks v = 1 := by
        unfold internalLineBreaks
        rw [hdecomp, ← List.singleton_append, ← List.append_assoc,
          List.dropLast_append_of_ne_nil _ hnil,
          List.count_append, List.count_append, hc0, hcd]
        simp
      simp [hib]
termination_by v.length
decreasing_by
  simp only [List.length_drop]
  omega

/-- C4: for every non-empty value containing k internal line breaks (line
feeds other than a final one), the KeyValue Formatter emits `key:` and a
line terminator, then exactly k+1 lines, each prefixed by "> " and each
terminated by the configured line terminator; the lines are exactly the
value's segments split at line feeds, with one trailing carriage return
before each line feed stripped (not duplicated) and all other characters
preserved (`multilineLines`). -/
theorem serializeKeyValue_multiline_lines (lb key v : Str) (h : '\n' ∈ v) :
    SerializeKeyValue lb [(key, v)]
        = key ++ ':' :: (lb ++ ((multilineLines v).map
            (fun s => '>' :: ' ' :: (s ++ lb))).flatten)
      ∧ (multilineLines v).length = internalLineBreaks v + 1 := by
  obtain ⟨nl, hnl⟩ := qIndexOf_isSome_of_mem h
  have hvne : v ≠ [] := by rintro rfl; simp at h
  constructor
  · have hq0 : qIndexOfFrom '\n' v 0 = some nl := by
      simp [qIndexOfFrom, hnl]
    simp only [SerializeKeyValue, if_neg hvne, hq0, List.append_nil]
    rw [SerializeMultiline_eq lb v hnl]
  · exact multilineLines_length v h

/-- Witness for C4 at the concrete pair `K: "a\r\nb"`. -/
theorem serializeKeyValue_multiline_lines_witness :
    '\n' ∈ ("a\r\nb").toList
      ∧ (SerializeKeyValue ['\n'] [((("K").toList), ("a\r\nb").toList)]
          = ("K").toList ++ ':' :: (['\n']
            ++ ((multilineLines (("a\r\nb").toList)).map
              (fun s => '>' :: ' ' :: (s ++ ['\n']))).flatten)
        ∧ (multilineLines (("a\r\nb").toList)).length
            = internalLineBreaks (("a\r\nb").toList) + 1) :=
  ⟨by decide, serializeKeyValue_multiline_lines ['\n'] (("K").toList)
    (("a\r\nb").toList) (by decide)⟩

/-- C2 (amended): the zero-padded sequence number computed at `beginChat`
has width `max(digits(total - 1), digits(index + 1))` — the pad parameter is
the digit count of `total - 1`, and a number that needs more digits is not
truncated.  In particular, for a dialog list of size 11 the width is 2 for
every index, and for size 101 it is 3. -/
theorem writeChatStartNumber_width (total idx : Nat) (h : idx < total) :
    (writeChatStartNumber total idx).length
        = max ((NumberToString (total - 1)).length)
          ((NumberToString (idx + 1)).length)
      ∧ (total = 11 → (writeChatStartNumber total idx).length = 2)
      ∧ (total = 101 → (writeChatStartNumber total idx).length = 3) := by
  have hgen : (writeChatStartNumber total idx).length
      = max ((NumberToString (total - 1)).length)
        ((NumberToString (idx + 1)).length) := by
    simp only [writeChatStartNumber, NumberToStringPad, List.length_append,
      List.length_replicate]
    omega
  refine ⟨hgen, ?_, ?_⟩
  · rintro rfl
    have h1 : (NumberToString (11 - 1)).length = 2 := by decide
    have h2 : ∀ n < 12, (NumberToString n).length ≤ 2 := by decide
    have h3 := h2 (idx + 1) (by omega)
    have h4 : 1 ≤ (NumberToString (idx + 1)).length :=
      List.length_pos.mpr (NumberToString_ne_nil _)
    rw [hgen, h1]
    omega
  · rintro rfl
    have h1 : (NumberToString (101 - 1)).length = 3 := by decide
    have h2 : ∀ n < 102, (NumberToString n).length ≤ 3 := by decide
    have h3 := h2 (idx + 1) (by omega)
    have h4 : 1 ≤ (NumberToString (idx + 1)).length :=
      List.length_pos.mpr (NumberToString_ne_nil _)
    rw [hgen, h1]
    omega

/-- C2 counterexample: for a dialog list of size 11 the first dialog's
sequence number is "01", so the zero-padded width at index 0 is 2, not 1. -/
theorem writeChatStartNumber_size11_counterexample :
    writeChatStartNumber 11 0 = ['0', '1']
      ∧ (writeChatStartNumber 11 0).length ≠ 1 :=
  ⟨by decide, by decide⟩

/-- Witness for C2 at total 101, index 0. -/
theorem writeChatStartNumber_width_witness :
    (0 : Nat) < 101 ∧ (writeChatStartNumber 101 0).length = 3 :=
  ⟨by decide, (writeChatStartNumber_width 101 0 (by decide)).2.2 rfl⟩

/-- C3: a message whose media variant is UnsupportedMedia serializes to
exactly the fixed incompatibility notice, regardless of any other populated
field; no key-value field list is produced. -/
theorem serializeMessage_unsupported (lb : Str) (fmtDate : Nat → Str)
    (fmtMoney : Int → Str → Str) (fmtPhone : Str → Str) (msg : Message)
    (peers : PeerId → Option Peer) (internalLinksDomain : Str)
    (h : msg.media.content = MediaContent.unsupportedMedia) :
    SerializeMessage lb fmtDate fmtMoney fmtPhone msg peers
      internalLinksDomain = some unsupportedNotice := by
  simp [SerializeMessage, h, MediaContent.isUnsupported]

/-- Witness for C3: an unsupported-media message that also carries an
action, a sender, a reply target, a forward origin, a signature, text and a
TTL. -/
theorem serializeMessage_unsupported_witness :
    (⟨9, 8, 7, 6, 5, 4, some (PeerId.chat 3), ("sig").toList,
        ("hello").toList, ActionContent.historyClear,
        ⟨MediaContent.unsupportedMedia, 2⟩⟩ : Message).media.content
        = MediaContent.unsupportedMedia
      ∧ SerializeMessage ['\n'] sampleFmtDate sampleFmtMoney sampleFmtPhone
          ⟨9, 8, 7, 6, 5, 4, some (PeerId.chat 3), ("sig").toList,
            ("hello").toList, ActionContent.historyClear,
            ⟨MediaContent.unsupportedMedia, 2⟩⟩ samplePeers []
        = some unsupportedNotice :=
  ⟨rfl, serializeMessage_unsupported _ _ _ _ _ _ _ rfl⟩

/-- C7: a `beginChat`/`endChat` session during which no slice was written
(zero messages) produces a summary block whose count field has value "0"
and in which the content-pointer field is omitted (its value is empty). -/
theorem writeChatEnd_zero (lb : Str) (dialog : DialogInfo) :
    writeChatEndBlock lb dialog 0
      = SerializeKeyValue lb [
          ((("Name").toList), NameString dialog.name dialog.type),
          ((("Type").toList), TypeString dialog.type),
          ((if dialog.onlyMyMessages then ("Outgoing messages count").toList
            else ("Messages count").toList), ['0'])] ++ lb := by
  have h0 : NumberToString 0 = ['0'] := rfl
  simp only [writeChatEndBlock, h0]
  simp [SerializeKeyValue]

/-- C8: the shared path-rendering rule is total whenever the relative path
is non-empty or the skip reason is not None — it renders the relative path
for reason None and the reason-specific bracketed placeholder (optionally
prefixed by the label) otherwise — and its fatal precondition failure
occurs exactly when the relative path is empty and the skip reason is None
simultaneously. -/
theorem pushPathValue_spec (file : File) (name : Str) :
    (pushPathValue file name = Option.none
        ↔ (file.relativePath = [] ∧ file.skipReason = SkipReason.None))
      ∧ pushPathValue file name
        = if file.relativePath = [] ∧ file.skipReason = SkipReason.None
          then Option.none else some (specPathRendering file name) := by
  unfold pushPathValue specPathRendering
  rcases file with ⟨path, reason⟩
  by_cases hp : path = [] <;> cases reason <;> simp [hp, FormatFilePath]

theorem messageFields_eq_some (lb : Str) (fmtDate : Nat → Str)
    (fmtMoney : Int → Str → Str) (fmtPhone : Str → Str) (msg : Message)
    (peers : PeerId → Option Peer) (dom : Str) {fs : List Field} :
    messageFields lb fmtDate fmtMoney fmtPhone msg peers dom = some fs
      ↔ ∃ af mf, actionFields peers fmtMoney msg = some af
          ∧ mediaFields lb fmtMoney fmtPhone peers dom msg = some mf
          ∧ fs = [((("ID").toList), NumberToString msg.id),
              ((("Date").toList), fmtDate msg.date),
              ((("Edited").toList), fmtDate msg.edited)]
            ++ af ++ noActionFields peers msg ++ mf
            ++ pushKV (("Text").toList) msg.text := by
  unfold messageFields
  constructor
  · intro h
    rcases haf : actionFields peers fmtMoney msg with _ | af
    · rw [haf] at h
      exact Option.noConfusion h
    · rcases hmf : mediaFields lb fmtMoney fmtPhone peers dom msg with _ | mf
      · rw [haf, hmf] at h
        exact Option.noConfusion h
      · rw [haf, hmf] at h
        exact ⟨af, mf, rfl, rfl, (Option.some.inj h).symm⟩
  · rintro ⟨af, mf, haf, hmf, rfl⟩
    rw [haf, hmf]
    rfl

/-- C1 (amended): for every message with a sender whose action kind emits
an actor — every action kind except payment-sent, bot-allowed and
secure-values-sent, which omit the actor — the serialized field list
begins, right after the fixed ID/Date/Edited entries, with an "Actor" field
holding the sender name. -/
theorem messageFields_actor_first (lb : Str) (fmtDate : Nat → Str)
    (fmtMoney : Int → Str → Str) (fmtPhone : Str → Str) (msg : Message)
    (peers : PeerId → Option Peer) (dom : Str) (fs : List Field)
    (hactor : actionEmitsActor msg.action = true)
    (hfrom : msg.fromId ≠ 0)
    (hfs : messageFields lb fmtDate fmtMoney fmtPhone msg peers dom
      = some fs) :
    fs.take 4 = [((("ID").toList), NumberToString msg.id),
      ((("Date").toList), fmtDate msg.date),
      ((("Edited").toList), fmtDate msg.edited),
      ((("Actor").toList), wrapUserName peers msg.fromId)] := by
  rcases (messageFields_eq_some lb fmtDate fmtMoney fmtPhone msg peers
    dom).mp hfs with ⟨af, mf, haf, hmf, rfl⟩
  have key : ∃ rest, af
      = ((("Actor").toList), wrapUserName peers msg.fromId) :: rest := by
    cases hA : msg.action
    case paymentSent c a =>
      rw [hA] at hactor
      simp [actionEmitsActor] at hactor
    case botAllowed d =>
      rw [hA] at hactor
      simp [actionEmitsActor] at hactor
    case secureValuesSent t =>
      rw [hA] at hactor
      simp [actionEmitsActor] at hactor
    case noneType =>
      rw [hA] at hactor
      simp [actionEmitsActor] at hactor
    case chatEditPhoto photo =>
      simp only [actionFields, hA] at haf
      rcases Option.map_eq_some'.mp haf with ⟨pp, hpp, heq⟩
      subst heq
      simp [pushFrom, hfrom]
    all_goals
      simp only [actionFields, hA] at haf
      simp [pushFrom, hfrom] at haf
      exact ⟨_, haf.symm⟩
  rcases key with ⟨rest, rfl⟩
  simp [List.take_append_eq_append_take]

theorem mem_pushKV {k v : Str} {p : Field} (h : p ∈ pushKV k v) :
    p.1 = k := by
  unfold pushKV at h
  split at h
  · simp at h
  · rw [List.mem_singleton.mp h]

theorem mem_pushFrom {peers : PeerId → Option Peer} {msg : Message}
    {label : Str} {p : Field} (h : p ∈ pushFrom peers msg label) :
    p.1 = label := by
  unfold pushFrom at h
  split at h
  · exact mem_pushKV h
  · simp at h

theorem mem_pushReplyToMsgId {msg : Message} {label : Str} {p : Field}
    (h : p ∈ pushReplyToMsgId msg label) : p.1 = label := by
  unfold pushReplyToMsgId at h
  split at h
  · exact mem_pushKV h
  · simp at h

theorem mem_pushUserNames {peers : PeerId → Option Peer} {data : List Nat}
    {l1 l2 : Str} {p : Field} (h : p ∈ pushUserNames peers data l1 l2) :
    p.1 = l1 ∨ p.1 = l2 := by
  simp only [pushUserNames] at h
  split at h
  · exact Or.inl (mem_pushKV h)
  · split at h
    · exact Or.inr (mem_pushKV h)
    · simp at h

theorem mem_pushTTL {msg : Message} {label : Str} {p : Field}
    (h : p ∈ pushTTL msg label) : p.1 = label := by
  unfold pushTTL at h
  split at h
  · exact mem_pushKV h
  · simp at h

theorem mem_ite_pushKV {c : Prop} [Decidable c] {k v : Str} {p : Field}
    (h : p ∈ (if c then pushKV k v else [])) : p.1 = k := by
  split at h
  · exact mem_pushKV h
  · simp at h

theorem mem_pushPathFields {file : File} {label name : Str}
    {pf : List Field} (h : pushPathFields file label name = some pf) :
    ∀ p ∈ pf, p.1 = label := by
  unfold pushPathFields at h
  rcases Option.map_eq_some'.mp h with ⟨v, _, rfl⟩
  intro p hp
  exact mem_pushKV hp

theorem mem_pushPhotoFields {image : Image} {pp : List Field}
    (h : pushPhotoFields image = some pp) :
    ∀ p ∈ pp, p.1 = ("Photo").toList ∨ p.1 = ("Width").toList
      ∨ p.1 = ("Height").toList := by
  unfold pushPhotoFields at h
  rcases Option.map_eq_some'.mp h with ⟨pf, hpf, rfl⟩
  intro p hp
  rcases List.mem_append.mp hp with hp | hp
  · exact Or.inl (mem_pushPathFields hpf p hp)
  · split at hp
    · rcases List.mem_append.mp hp with hp | hp
      · exact Or.inr (Or.inl (mem_pushKV hp))
      · exact Or.inr (Or.inr (mem_pushKV hp))
    · simp at hp

theorem mem_double_ite_pushKV {c1 c2 : Prop} [Decidable c1] [Decidable c2]
    {k1 v1 k2 v2 : Str} {p : Field}
    (h : p ∈ (if c1 then pushKV k1 v1
      else if c2 then pushKV k2 v2 else [])) : p.1 = k1 ∨ p.1 = k2 := by
  split at h
  · exact Or.inl (mem_pushKV h)
  · split at h
    · exact Or.inr (mem_pushKV h)
    · simp at h

theorem mem_ite_pushKV2 {c : Prop} [Decidable c] {k1 v1 k2 v2 : Str}
    {p : Field} (h : p ∈ (if c then pushKV k1 v1 ++ pushKV k2 v2 else [])) :
    p.1 = k1 ∨ p.1 = k2 := by
  split at h
  · rcases List.mem_append.mp h with h | h
    exacts [Or.inl (mem_pushKV h), Or.inr (mem_pushKV h)]
  · simp at h

theorem actionFields_keys (peers : PeerId → Option Peer)
    (fmtMoney : Int → Str → Str) (msg : Message) (af : List Field)
    (haf : actionFields peers fmtMoney msg = some af) :
    ∀ p ∈ af, p.1 ∉ noActionOnlyKeys := by
  cases hA : msg.action
  case chatCreate title userIds =>
    simp only [actionFields, hA] at haf
    obtain rfl := Option.some.inj haf
    intro p hp
    simp only [List.mem_append] at hp
    rcases hp with ((hp | hp) | hp) | hp
    · rw [mem_pushFrom hp]; decide
    · rw [mem_pushKV hp]; decide
    · rw [mem_pushKV hp]; decide
    · rcases mem_pushUserNames hp with h | h <;> (rw [h]; decide)
  case chatEditTitle title =>
    simp only [actionFields, hA] at haf
    obtain rfl := Option.some.inj haf
    intro p hp
    simp only [List.mem_append] at hp
    rcases hp with (hp | hp) | hp
    · rw [mem_pushFrom hp]; decide
    · rw [mem_pushKV hp]; decide
    · rw [mem_pushKV hp]; decide
  case chatEditPhoto photo =>
    simp only [actionFields, hA] at haf
    rcases Option.map_eq_some'.mp haf with ⟨pp, hpp, rfl⟩
    intro p hp
    simp only [List.mem_append] at hp
    rcases hp with (hp | hp) | hp
    · rw [mem_pushFrom hp]; decide
    · rw [mem_pushKV hp]; decide
    · rcases mem_pushPhotoFields hpp p hp with h | h | h <;> (rw [h]; decide)
  case chatDeletePhoto =>
    simp only [actionFields, hA] at haf
    obtain rfl := Option.some.inj haf
    intro p hp
    rcases List.mem_append.mp hp with hp | hp
    · rw [mem_pushFrom hp]; decide
    · rw [mem_pushKV hp]; decide
  case chatAddUser userIds =>
    simp only [actionFields, hA] at haf
    obtain rfl := Option.some.inj haf
    intro p hp
    simp only [List.mem_append] at hp
    rcases hp with (hp | hp) | hp
    · rw [mem_pushFrom hp]; decide
    · rw [mem_pushKV hp]; decide
    · rcases mem_pushUserNames hp with h | h <;> (rw [h]; decide)
  case chatDeleteUser userId =>
    simp only [actionFields, hA] at haf
    obtain rfl := Option.some.inj haf
    intro p hp
    simp only [List.mem_append] at hp
    rcases hp with (hp | hp) | hp
    · rw [mem_pushFrom hp]; decide
    · rw [mem_pushKV hp]; decide
    · rw [mem_pushKV hp]; decide
  case chatJoinedByLink inviterId =>
    simp only [actionFields, hA] at haf
    obtain rfl := Option.some.inj haf
    intro p hp
    simp only [List.mem_append] at hp
    rcases hp with (hp | hp) | hp
    · rw [mem_pushFrom hp]; decide
    · rw [mem_pushKV hp]; decide
    · rw [mem_pushKV hp]; decide
  case channelCreate title =>
    simp only [actionFields, hA] at haf
    obtain rfl := Option.some.inj haf
    intro p hp
    simp only [List.mem_append] at hp
    rcases hp with (hp | hp) | hp
    · rw [mem_pushFrom hp]; decide
    · rw [mem_pushKV hp]; decide
    · rw [mem_pushKV hp]; decide
  case chatMigrateTo =>
    simp only [actionFields, hA] at haf
    obtain rfl := Option.some.inj haf
    intro p hp
    rcases List.mem_append.mp hp with hp | hp
    · rw [mem_pushFrom hp]; decide
    · rw [mem_pushKV hp]; decide
  case channelMigrateFrom title =>
    simp only [actionFields, hA] at haf
    obtain rfl := Option.some.inj haf
    intro p hp
    simp only [List.mem_append] at hp
    rcases hp with (hp | hp) | hp
    · rw [mem_pushFrom hp]; decide
    · rw [mem_pushKV hp]; decide
    · rw [mem_pushKV hp]; decide
  case pinMessage =>
    simp only [actionFields, hA] at haf
    obtain rfl := Option.some.inj haf
    intro p hp
    simp only [List.mem_append] at hp
    rcases hp with (hp | hp) | hp
    · rw [mem_pushFrom hp]; decide
    · rw [mem_pushKV hp]; decide
    · rw [mem_pushReplyToMsgId hp]; decide
  case historyClear =>
    simp only [actionFields, hA] at haf
    obtain rfl := Option.some.inj haf
    intro p hp
    rcases List.mem_append.mp hp with hp | hp
    · rw [mem_pushFrom hp]; decide
    · rw [mem_pushKV hp]; decide
  case gameScore score =>
    simp only [actionFields, hA] at haf
    obtain rfl := Option.some.inj haf
    intro p hp
    simp only [List.mem_append] at hp
    rcases hp with ((hp | hp) | hp) | hp
    · rw [mem_pushFrom hp]; decide
    · rw [mem_pushKV hp]; decide
    · rw [mem_pushReplyToMsgId hp]; decide
    · rw [mem_pushKV hp]; decide
  case paymentSent currency amount =>
    simp only [actionFields, hA] at haf
    obtain rfl := Option.some.inj haf
    intro p hp
    simp only [List.mem_append] at hp
    rcases hp with (hp | hp) | hp
    · rw [mem_pushKV hp]; decide
    · rw [mem_pushKV hp]; decide
    · rw [mem_pushReplyToMsgId hp]; decide
  case phoneCall duration discardReason =>
    simp only [actionFields, hA] at haf
    obtain rfl := Option.some.inj haf
    intro p hp
    simp only [List.mem_append] at hp
    rcases hp with ((hp | hp) | hp) | hp
    · rw [mem_pushFrom hp]; decide
    · rw [mem_pushKV hp]; decide
    · rw [mem_ite_pushKV hp]; decide
    · rw [mem_pushKV hp]; decide
  case screenshotTaken =>
    simp only [actionFields, hA] at haf
    obtain rfl := Option.some.inj haf
    intro p hp
    rcases List.mem_append.mp hp with hp | hp
    · rw [mem_pushFrom hp]; decide
    · rw [mem_pushKV hp]; decide
  case customAction message =>
    simp only [actionFields, hA] at haf
    obtain rfl := Option.some.inj haf
    intro p hp
    rcases List.mem_append.mp hp with hp | hp
    · rw [mem_pushFrom hp]; decide
    · rw [mem_pushKV hp]; decide
  case botAllowed domain =>
    simp only [actionFields, hA] at haf
    obtain rfl := Option.some.inj haf
    intro p hp
    rcases List.mem_append.mp hp with hp | hp
    · rw [mem_pushKV hp]; decide
    · rw [mem_pushKV hp]; decide
  case secureValuesSent types =>
    simp only [actionFields, hA] at haf
    obtain rfl := Option.some.inj haf
    intro p hp
    rcases List.mem_append.mp hp with hp | hp
    · rw [mem_pushKV hp]; decide
    · rcases mem_double_ite_pushKV hp with h | h <;> (rw [h]; decide)
  case noneType =>
    simp only [actionFields, hA] at haf
    obtain rfl := Option.some.inj haf
    intro p hp
    simp at hp

theorem mediaFields_keys (lb : Str) (fmtMoney : Int → Str → Str)
    (fmtPhone : Str → Str) (peers : PeerId → Option Peer) (dom : Str)
    (msg : Message) (mf : List Field)
    (hmf : mediaFields lb fmtMoney fmtPhone peers dom msg = some mf) :
    ∀ p ∈ mf, p.1 ∉ noActionOnlyKeys := by
  cases hM : msg.media.content
  case photo photo =>
    simp only [mediaFields, hM] at hmf
    rcases Option.map_eq_some'.mp hmf with ⟨pp, hpp, rfl⟩
    intro p hp
    rcases List.mem_append.mp hp with hp | hp
    · rcases mem_pushPhotoFields hpp p hp with h | h | h <;> (rw [h]; decide)
    · rw [mem_pushTTL hp]; decide
  case document d =>
    simp only [mediaFields, hM] at hmf
    rcases Option.map_eq_some'.mp hmf with ⟨start, hstart, rfl⟩
    have hstartKeys : ∀ p ∈ start, p.1 ∉ noActionOnlyKeys := by
      split_ifs at hstart with h1 h2 h3 h4 h5 h6
      · rcases Option.map_eq_some'.mp hstart with ⟨pf, hpf, rfl⟩
        intro p hp
        rcases List.mem_append.mp hp with hp | hp
        · rw [mem_pushPathFields hpf p hp]; decide
        · rw [mem_pushKV hp]; decide
      · intro p hp
        rw [mem_pushPathFields hstart p hp]; decide
      · intro p hp
        rw [mem_pushPathFields hstart p hp]; decide
      · intro p hp
        rw [mem_pushPathFields hstart p hp]; decide
      · intro p hp
        rw [mem_pushPathFields hstart p hp]; decide
      · rcases Option.map_eq_some'.mp hstart with ⟨pf, hpf, rfl⟩
        intro p hp
        simp only [List.mem_append] at hp
        rcases hp with (hp | hp) | hp
        · rw [mem_pushPathFields hpf p hp]; decide
        · rw [mem_pushKV hp]; decide
        · rw [mem_pushKV hp]; decide
      · intro p hp
        rw [mem_pushPathFields hstart p hp]; decide
    intro p hp
    simp only [List.mem_append] at hp
    rcases hp with (((hp | hp) | hp) | hp) | hp
    · exact hstartKeys p hp
    · rw [mem_ite_pushKV hp]; decide
    · rw [mem_ite_pushKV hp]; decide
    · rcases mem_ite_pushKV2 hp with h | h <;> (rw [h]; decide)
    · rw [mem_pushTTL hp]; decide
  case contactInfo c =>
    simp only [mediaFields, hM] at hmf
    obtain rfl := Option.some.inj hmf
    intro p hp
    rw [mem_pushKV hp]; decide
  case geoPoint g =>
    simp only [mediaFields, hM] at hmf
    obtain rfl := Option.some.inj hmf
    intro p hp
    rcases List.mem_append.mp hp with hp | hp
    · rw [mem_pushKV hp]; decide
    · rw [mem_pushTTL hp]; decide
  case venue v =>
    simp only [mediaFields, hM] at hmf
    obtain rfl := Option.some.inj hmf
    intro p hp
    simp only [List.mem_append] at hp
    rcases hp with (hp | hp) | hp
    · rw [mem_pushKV hp]; decide
    · rw [mem_pushKV hp]; decide
    · rw [mem_ite_pushKV hp]; decide
  case game g =>
    simp only [mediaFields, hM] at hmf
    obtain rfl := Option.some.inj hmf
    intro p hp
    simp only [List.mem_append] at hp
    rcases hp with (hp | hp) | hp
    · rw [mem_pushKV hp]; decide
    · rw [mem_pushKV hp]; decide
    · split at hp
      · split at hp
        · rw [mem_pushKV hp]; decide
        · simp at hp
      · simp at hp
  case invoice i =>
    simp only [mediaFields, hM] at hmf
    obtain rfl := Option.some.inj hmf
    intro p hp
    rw [mem_pushKV hp]; decide
  case unsupportedMedia =>
    simp only [mediaFields, hM] at hmf
    exact Option.noConfusion hmf
  case noneType =>
    simp only [mediaFields, hM] at hmf
    obtain rfl := Option.some.inj hmf
    intro p hp
    simp at hp

theorem filter_key_eq_nil {l : List Field} {key : Str}
    (h : ∀ p ∈ l, p.1 ≠ key) :
    l.filter (fun p => p.1 = key) = [] := by
  rw [List.filter_eq_nil_iff]
  intro p hp
  simpa using h p hp

theorem filter_key_pushKV_self (key v : Str) :
    (pushKV key v).filter (fun p => p.1 = key) = pushKV key v := by
  unfold pushKV
  split <;> simp

theorem filter_key_pushKV_ne {k key : Str} (h : k ≠ key) (v : Str) :
    (pushKV k v).filter (fun p => p.1 = key) = [] :=
  filter_key_eq_nil (fun p hp => by rw [mem_pushKV hp]; exact h)

theorem filter_key_pushFrom {peers : PeerId → Option Peer} {msg : Message}
    {label key : Str} (h : label ≠ key) :
    (pushFrom peers msg label).filter (fun p => p.1 = key) = [] :=
  filter_key_eq_nil (fun p hp => by rw [mem_pushFrom hp]; exact h)

theorem filter_key_ite_pushKV_ne {c : Prop} [Decidable c] {k key : Str}
    (h : k ≠ key) (v : Str) :
    (if c then pushKV k v else []).filter (fun p => p.1 = key) = [] := by
  split
  · exact filter_key_pushKV_ne h v
  · rfl

/-- C5 (amended): for every message with no action, the sender,
author-signature, forwarded-from, reply-target and via-bot fields are
appended right after the fixed ID/Date/Edited entries — before the media
fields, not after them — each present only when its underlying value is
non-empty; for every message that carries an action, all five of these
fields are absent from the output. -/
theorem messageFields_no_action_block (lb : Str) (fmtDate : Nat → Str)
    (fmtMoney : Int → Str → Str) (fmtPhone : Str → Str) (msg : Message)
    (peers : PeerId → Option Peer) (dom : Str) (fs : List Field)
    (hfs : messageFields lb fmtDate fmtMoney fmtPhone msg peers dom
      = some fs) :
    (msg.action = ActionContent.noneType →
      ∃ mf, mediaFields lb fmtMoney fmtPhone peers dom msg = some mf
        ∧ fs = [((("ID").toList), NumberToString msg.id),
            ((("Date").toList), fmtDate msg.date),
            ((("Edited").toList), fmtDate msg.edited)]
          ++ ((if msg.fromId ≠ 0 then
              [((("From").toList), wrapUserName peers msg.fromId)] else [])
            ++ (if msg.signature ≠ [] then
              [((("Author").toList), msg.signature)] else [])
            ++ (match msg.forwardedFromId with
              | some peerId =>
                [((("Forwarded from").toList), wrapPeerName peers peerId)]
              | Option.none => [])
            ++ (if msg.replyToMsgId ≠ 0 then
              [((("Reply to message").toList),
                ("ID-").toList ++ NumberToString msg.replyToMsgId)] else [])
            ++ (if msg.viaBotId ≠ 0 ∧ (userAt peers msg.viaBotId).username ≠ []
              then [((("Via").toList), (userAt peers msg.viaBotId).username)]
              else []))
          ++ mf
          ++ (if msg.text ≠ [] then [((("Text").toList), msg.text)] else []))
    ∧ (msg.action ≠ ActionContent.noneType →
      ∀ p ∈ fs, p.1 ∉ noActionOnlyKeys) := by
  rcases (messageFields_eq_some lb fmtDate fmtMoney fmtPhone msg peers
    dom).mp hfs with ⟨af, mf, haf, hmf, rfl⟩
  constructor
  · intro hnone
    simp only [actionFields, hnone] at haf
    obtain rfl := Option.some.inj haf
    refine ⟨mf, hmf, ?_⟩
    have e1 : pushFrom peers msg (("From").toList)
        = if msg.fromId ≠ 0 then
          [((("From").toList), wrapUserName peers msg.fromId)] else [] := by
      unfold pushFrom
      split <;> simp
    have e2 : pushKV (("Author").toList) msg.signature
        = if msg.signature ≠ [] then
          [((("Author").toList), msg.signature)] else [] := by
      unfold pushKV
      split_ifs <;> simp_all
    have e3 : (match msg.forwardedFromId with
          | some peerId =>
            pushKV (("Forwarded from").toList) (wrapPeerName peers peerId)
          | Option.none => ([] : List Field))
        = (match msg.forwardedFromId with
          | some peerId =>
            [((("Forwarded from").toList), wrapPeerName peers peerId)]
          | Option.none => []) := by
      cases msg.forwardedFromId
      · rfl
      · simp [pushKV_of_ne_nil _ (wrapPeerName_ne_nil _ _)]
    have e4 : pushReplyToMsgId msg (("Reply to message").toList)
        = if msg.replyToMsgId ≠ 0 then
          [((("Reply to message").toList),
            ("ID-").toList ++ NumberToString msg.replyToMsgId)] else [] := by
      unfold pushReplyToMsgId pushKV
      split_ifs <;> simp_all
    have e5 : (if msg.viaBotId ≠ 0 then
          pushKV (("Via").toList) (userAt peers msg.viaBotId).username
          else [])
        = if msg.viaBotId ≠ 0 ∧ (userAt peers msg.viaBotId).username ≠ []
          then [((("Via").toList), (userAt peers msg.viaBotId).username)]
          else [] := by
      unfold pushKV
      split_ifs <;> simp_all
    have e6 : pushKV (("Text").toList) msg.text
        = if msg.text ≠ [] then [((("Text").toList), msg.text)] else [] := by
      unfold pushKV
      split_ifs <;> simp_all
    simp only [noActionFields, if_pos hnone, e1, e2, e3, e4, e5, e6]
    simp [List.append_assoc]
  · intro hne p hp
    simp only [List.mem_append] at hp
    rcases hp with (((hp | hp) | hp) | hp) | hp
    · simp only [List.mem_cons] at hp
      rcases hp with rfl | rfl | rfl | hp
      · show ("ID").toList ∉ noActionOnlyKeys
        decide
      · show ("Date").toList ∉ noActionOnlyKeys
        decide
      · show ("Edited").toList ∉ noActionOnlyKeys
        decide
      · simp at hp
    · exact actionFields_keys peers fmtMoney msg af haf p hp
    · simp [noActionFields, hne] at hp
    · exact mediaFields_keys lb fmtMoney fmtPhone peers dom msg mf hmf p hp
    · rw [mem_pushKV hp]; decide

/-- C5 counterexample: in a no-action message with a sender and photo
media, the serialized field keys are ID, Date, Edited, From, Photo in that
order — the sender field (index 3) precedes the media field (index 4), so
the five no-action fields are not appended after the media fields. -/
theorem from_before_media_counterexample :
    (messageFields ['\n'] sampleFmtDate sampleFmtMoney sampleFmtPhone
        (⟨1, 2, 3, 7, 0, 0, Option.none, [], [], ActionContent.noneType,
          ⟨MediaContent.photo ⟨⟨0, 0, ⟨("p.jpg").toList, SkipReason.None⟩⟩⟩,
            0⟩⟩ : Message) samplePeers []).map (fun l => l.map Prod.fst)
      = some [("ID").toList, ("Date").toList, ("Edited").toList,
          ("From").toList, ("Photo").toList]
    ∧ List.indexOf (("From").toList) [("ID").toList, ("Date").toList,
          ("Edited").toList, ("From").toList, ("Photo").toList]
        < List.indexOf (("Photo").toList) [("ID").toList, ("Date").toList,
          ("Edited").toList, ("From").toList, ("Photo").toList] :=
  ⟨by decide, by decide⟩

/-- Witness for C5 at a no-action photo message with sender id 7: the From
field sits between the fixed entries and the media fields. -/
theorem messageFields_no_action_block_witness :
    ∃ mf, mediaFields ['\n'] sampleFmtMoney sampleFmtPhone samplePeers []
        (⟨1, 2, 3, 7, 0, 0, Option.none, [], [], ActionContent.noneType,
          ⟨MediaContent.photo ⟨⟨0, 0, ⟨("p.jpg").toList, SkipReason.None⟩⟩⟩,
            0⟩⟩ : Message) = some mf
      ∧ [((("ID").toList), ("1").toList),
          ((("Date").toList), ("2").toList),
          ((("Edited").toList), ("3").toList),
          ((("From").toList), ("(unknown user)").toList),
          ((("Photo").toList), ("p.jpg").toList)]
        = [((("ID").toList), ("1").toList),
            ((("Date").toList), ("2").toList),
            ((("Edited").toList), ("3").toList)]
          ++ ([((("From").toList), ("(unknown user)").toList)]
            ++ [] ++ [] ++ [] ++ [])
          ++ mf ++ [] :=
  (messageFields_no_action_block ['\n'] sampleFmtDate sampleFmtMoney
    sampleFmtPhone
    (⟨1, 2, 3, 7, 0, 0, Option.none, [], [], ActionContent.noneType,
      ⟨MediaContent.photo ⟨⟨0, 0, ⟨("p.jpg").toList, SkipReason.None⟩⟩⟩,
        0⟩⟩ : Message) samplePeers []
    [((("ID").toList), ("1").toList),
      ((("Date").toList), ("2").toList),
      ((("Edited").toList), ("3").toList),
      ((("From").toList), ("(unknown user)").toList),
      ((("Photo").toList), ("p.jpg").toList)]
    (by decide)).1 rfl

/-- C9: a field-level enum value outside its recognized set renders as the
empty string for that one field — which the formatter then omits — rather
than failing: the phone-call discard-reason label is exactly "Busy",
"Disconnect", "Hangup" or "Missed" for recognized values and empty
otherwise; the "Discard reason" field is present exactly for recognized
values; the "Duration" field appears only when the duration is non-zero;
and a message whose secure-value list holds one unrecognized type gets no
"Value"/"Values" field. -/
theorem unrecognized_enum_fields (peers : PeerId → Option Peer)
    (fmtMoney : Int → Str → Str) :
    (discardReasonString DiscardReason.Busy = ("Busy").toList
      ∧ discardReasonString DiscardReason.Disconnect = ("Disconnect").toList
      ∧ discardReasonString DiscardReason.Hangup = ("Hangup").toList
      ∧ discardReasonString DiscardReason.Missed = ("Missed").toList
      ∧ discardReasonString DiscardReason.unrecognized = [])
    ∧ (∀ (msg : Message) (duration : Nat) (reason : DiscardReason)
        (af : List Field),
        msg.action = ActionContent.phoneCall duration reason →
        actionFields peers fmtMoney msg = some af →
        af.filter (fun p => p.1 = ("Discard reason").toList)
            = (if reason = DiscardReason.unrecognized then []
              else [((("Discard reason").toList),
                discardReasonString reason)])
          ∧ af.filter (fun p => p.1 = ("Duration").toList)
            = (if duration = 0 then []
              else [((("Duration").toList),
                NumberToString duration ++ (" sec.").toList)]))
    ∧ (∀ (msg : Message) (t : SecureValueType) (af : List Field),
        msg.action = ActionContent.secureValuesSent [t] →
        secureValueTypeString t = [] →
        actionFields peers fmtMoney msg = some af →
        ∀ p ∈ af, p.1 ≠ ("Value").toList ∧ p.1 ≠ ("Values").toList) := by
  refine ⟨⟨rfl, rfl, rfl, rfl, rfl⟩, ?_, ?_⟩
  · intro msg duration reason af hA haf
    simp only [actionFields, hA] at haf
    obtain rfl := Option.some.inj haf
    constructor
    · simp only [List.filter_append]
      rw [filter_key_pushFrom (by decide),
        filter_key_pushKV_ne (by decide) (("Phone call").toList),
        filter_key_ite_pushKV_ne (by decide),
        filter_key_pushKV_self]
      cases reason <;> simp +decide [discardReasonString, pushKV]
    · simp only [List.filter_append]
      rw [filter_key_pushFrom (by decide),
        filter_key_pushKV_ne (by decide) (("Phone call").toList),
        filter_key_pushKV_ne (by decide) (discardReasonString reason)]
      by_cases hd : duration = 0
      · simp [hd]
      · have hX : NumberToString duration ++ (" sec.").toList ≠ [] := by
          intro hh
          rcases List.append_eq_nil.mp hh with ⟨h1, _⟩
          exact NumberToString_ne_nil duration h1
        rw [if_pos (by simpa using hd), if_neg hd,
          pushKV_of_ne_nil _ hX]
        simp
  · intro msg t af hA hst haf
    simp only [actionFields, hA] at haf
    simp +decide [hst, pushKV] at haf
    obtain rfl := haf.symm
    intro p hp
    rw [List.mem_singleton.mp hp]
    exact ⟨by decide, by decide⟩

/-- Witness for C9: a phone call with an unrecognized discard reason and
zero duration yields neither a "Discard reason" nor a "Duration" field, and
one unrecognized secure-value type yields no "Value"/"Values" field. -/
theorem unrecognized_enum_fields_witness :
    ([((("Actor").toList), ("(unknown user)").toList),
        ((("Action").toList), ("Phone call").toList)] : List Field).filter
        (fun p => p.1 = ("Discard reason").toList) = []
    ∧ ([((("Actor").toList), ("(unknown user)").toList),
        ((("Action").toList), ("Phone call").toList)] : List Field).filter
        (fun p => p.1 = ("Duration").toList) = []
    ∧ ∀ p ∈ ([((("Action").toList),
          ("Send Telegram Passport values").toList)] : List Field),
        p.1 ≠ ("Value").toList ∧ p.1 ≠ ("Values").toList :=
  ⟨((unrecognized_enum_fields samplePeers sampleFmtMoney).2.1
      (⟨1, 2, 3, 7, 0, 0, Option.none, [], [],
        ActionContent.phoneCall 0 DiscardReason.unrecognized,
        ⟨MediaContent.noneType, 0⟩⟩ : Message) 0 DiscardReason.unrecognized
      [((("Actor").toList), ("(unknown user)").toList),
        ((("Action").toList), ("Phone call").toList)] rfl (by decide)).1,
    ((unrecognized_enum_fields samplePeers sampleFmtMoney).2.1
      (⟨1, 2, 3, 7, 0, 0, Option.none, [], [],
        ActionContent.phoneCall 0 DiscardReason.unrecognized,
        ⟨MediaContent.noneType, 0⟩⟩ : Message) 0 DiscardReason.unrecognized
      [((("Actor").toList), ("(unknown user)").toList),
        ((("Action").toList), ("Phone call").toList)] rfl (by decide)).2,
    (unrecognized_enum_fields samplePeers sampleFmtMoney).2.2
      (⟨1, 2, 3, 0, 0, 0, Option.none, [], [],
        ActionContent.secureValuesSent [SecureValueType.unrecognized],
        ⟨MediaContent.noneType, 0⟩⟩ : Message) SecureValueType.unrecognized
      [((("Action").toList), ("Send Telegram Passport values").toList)]
      rfl rfl (by decide)⟩

theorem serializeKeyValue_cons_ne_nil (lb : Str) (k v : Str)
    (rest : List (Str × Str)) (hk : k ≠ []) (hv : v ≠ []) :
    SerializeKeyValue lb ((k, v) :: rest) ≠ [] := by
  intro hh
  simp only [SerializeKeyValue] at hh
  rw [if_neg hv] at hh
  rcases List.append_eq_nil.mp hh with ⟨h1, _⟩
  rcases List.append_eq_nil.mp h1 with ⟨h2, _⟩
  exact hk h2

/-- C10: for a message whose media is a GeoPoint: if the point is not valid
the "Location" field is present and its value is exactly the literal
placeholder "(empty value)" — not a nested latitude/longitude sub-block and
not an omitted field; if the point is valid, the value is the nested
key-value sub-block with Latitude and Longitude. -/
theorem mediaFields_geoPoint (lb : Str) (fmtMoney : Int → Str → Str)
    (fmtPhone : Str → Str) (peers : PeerId → Option Peer) (dom : Str)
    (msg : Message) (g : GeoPoint) (mf : List Field)
    (hg : msg.media.content = MediaContent.geoPoint g)
    (hmf : mediaFields lb fmtMoney fmtPhone peers dom msg = some mf) :
    (g.valid = false →
      (((("Location").toList), ("(empty value)").toList) ∈ mf
        ∧ ∀ v, ((("Location").toList), v) ∈ mf
            → v = ("(empty value)").toList))
    ∧ (g.valid = true →
      ((("Location").toList), SerializeKeyValue lb [
          ((("Latitude").toList), NumberToStringInt g.latitude),
          ((("Longitude").toList), NumberToStringInt g.longitude)]) ∈ mf) := by
  simp only [mediaFields, hg] at hmf
  obtain rfl := Option.some.inj hmf
  constructor
  · intro hv
    simp only [hv, Bool.false_eq_true, if_false]
    rw [pushKV_of_ne_nil _ (by decide)]
    constructor
    · exact List.mem_append_left _ (by simp)
    · intro v hvmem
      rcases List.mem_append.mp hvmem with h | h
      · have := List.mem_singleton.mp h
        simpa using congrArg Prod.snd this
      · have hll := mem_pushTTL h
        have : ("Location").toList = ("Live location period").toList := hll
        exact absurd this (by decide)
  · intro hv
    simp only [hv, if_true]
    rw [pushKV_of_ne_nil _ (serializeKeyValue_cons_ne_nil lb _ _ _
      (by decide) (NumberToStringInt_ne_nil g.latitude))]
    exact List.mem_append_left _ (by simp)

/-- Witness for C10 at an invalid geo point (latitude 10, longitude 20). -/
theorem mediaFields_geoPoint_witness :
    (((("Location").toList), ("(empty value)").toList)
        ∈ ([((("Location").toList), ("(empty value)").toList)] : List Field)
      ∧ ∀ v, ((("Location").toList), v)
            ∈ ([((("Location").toList), ("(empty value)").toList)]
              : List Field)
          → v = ("(empty value)").toList) :=
  (mediaFields_geoPoint ['\n'] sampleFmtMoney sampleFmtPhone samplePeers []
    (⟨1, 2, 3, 0, 0, 0, Option.none, [], [], ActionContent.noneType,
      ⟨MediaContent.geoPoint ⟨10, 20, false⟩, 0⟩⟩ : Message)
    ⟨10, 20, false⟩
    [((("Location").toList), ("(empty value)").toList)]
    rfl (by decide)).1 rfl

theorem JoinList_cons_ne_nil {b : Str} (sep : Str) (bs : List Str)
    (hb : b ≠ []) : JoinList sep (b :: bs) ≠ [] := by
  cases bs
  · simpa [JoinList]
  · simp only [JoinList]
    intro hh
    rcases List.append_eq_nil.mp hh with ⟨h1, _⟩
    rcases List.append_eq_nil.mp h1 with ⟨h2, _⟩
    exact hb h2

theorem serializeMessage_ne_nil (lb : Str) (fmtDate : Nat → Str)
    (fmtMoney : Int → Str → Str) (fmtPhone : Str → Str) (msg : Message)
    (peers : PeerId → Option Peer) (dom : Str) {t : Str}
    (h : SerializeMessage lb fmtDate fmtMoney fmtPhone msg peers dom
      = some t) : t ≠ [] := by
  unfold SerializeMessage at h
  split at h
  · obtain rfl := Option.some.inj h
    decide
  · rcases Option.map_eq_some'.mp h with ⟨fs, hfs, rfl⟩
    rcases (messageFields_eq_some lb fmtDate fmtMoney fmtPhone msg peers
      dom).mp hfs with ⟨af, mf, _, _, rfl⟩
    exact serializeKeyValue_cons_ne_nil lb _ _ _ (by decide)
      (NumberToString_ne_nil msg.id)

theorem renderChatSlice_ne_nil (lb : Str) (fmtDate : Nat → Str)
    (fmtMoney : Int → Str → Str) (fmtPhone : Str → Str) (dom : Str)
    (slice : MessagesSlice) {r : Str} (hne : slice.list ≠ [])
    (hr : renderChatSlice lb fmtDate fmtMoney fmtPhone dom slice = some r) :
    r ≠ [] := by
  unfold renderChatSlice at hr
  rcases hl : slice.list with _ | ⟨m, rest⟩
  · exact absurd hl hne
  rw [hl, List.mapM_cons] at hr
  rcases hm : SerializeMessage lb fmtDate fmtMoney fmtPhone m slice.peers
    dom with _ | b
  · rw [hm] at hr
    simp at hr
  · rcases hrest : rest.mapM (fun mm =>
        SerializeMessage lb fmtDate fmtMoney fmtPhone mm slice.peers dom)
      with _ | bs
    · rw [hm, hrest] at hr
      simp at hr
    · rw [hm, hrest] at hr
      obtain rfl := Option.some.inj hr
      exact JoinList_cons_ne_nil lb bs (serializeMessage_ne_nil lb fmtDate
        fmtMoney fmtPhone m slice.peers dom hm)

theorem chatFile_fold (lb : Str) (fmtDate : Nat → Str)
    (fmtMoney : Int → Str → Str) (fmtPhone : Str → Str) (dom : Str) :
    ∀ (rest : List MessagesSlice) (prev : Str) (rs : List Str),
      prev ≠ [] →
      rest.mapM (renderChatSlice lb fmtDate fmtMoney fmtPhone dom)
        = some rs →
      rest.foldl (writeChatSliceStep lb fmtDate fmtMoney fmtPhone dom)
          (some prev)
        = some (prev ++ (rs.map (fun r => lb ++ r)).flatten) := by
  intro rest
  induction rest with
  | nil =>
    intro prev rs hprev hmap
    obtain rfl := Option.some.inj hmap
    simp
  | cons sl rest ih =>
    intro prev rs hprev hmap
    rw [List.mapM_cons] at hmap
    rcases h1 : renderChatSlice lb fmtDate fmtMoney fmtPhone dom sl
      with _ | r0
    · rw [h1] at hmap
      simp at hmap
    · rcases h2 : rest.mapM (renderChatSlice lb fmtDate fmtMoney fmtPhone
        dom) with _ | rs'
      · rw [h1, h2] at hmap
        simp at hmap
      · rw [h1, h2] at hmap
        obtain rfl := Option.some.inj hmap
        simp only [List.foldl_cons]
        have hstep : writeChatSliceStep lb fmtDate fmtMoney fmtPhone dom
            (some prev) sl = some (prev ++ (lb ++ r0)) := by
          unfold writeChatSliceStep
          rw [h1]
          simp [hprev]
        rw [hstep, ih (prev ++ (lb ++ r0)) rs'
          (List.append_ne_nil_of_left_ne_nil hprev _) h2]
        simp

/-- C6: over every sequence of `writeChatSlice` calls on one freshly opened
per-dialog file, the first slice is written with no leading line
terminator, and every subsequent slice is prefixed by exactly one leading
line terminator before its joined message blocks. -/
theorem chatFileAfterSlices_separation (lb : Str) (fmtDate : Nat → Str)
    (fmtMoney : Int → Str → Str) (fmtPhone : Str → Str) (dom : Str)
    (s : MessagesSlice) (rest : List MessagesSlice) (r : Str)
    (rs : List Str) (hne : s.list ≠ [])
    (hr : renderChatSlice lb fmtDate fmtMoney fmtPhone dom s = some r)
    (hrs : rest.mapM (renderChatSlice lb fmtDate fmtMoney fmtPhone dom)
      = some rs) :
    chatFileAfterSlices lb fmtDate fmtMoney fmtPhone dom (s :: rest)
      = some (r ++ (rs.map (fun x => lb ++ x)).flatten) := by
  unfold chatFileAfterSlices
  simp only [List.foldl_cons]
  have hstep : writeChatSliceStep lb fmtDate fmtMoney fmtPhone dom
      (some []) s = some r := by
    unfold writeChatSliceStep
    rw [hr]
    simp
  rw [hstep]
  exact chatFile_fold lb fmtDate fmtMoney fmtPhone dom rest r rs
    (renderChatSlice_ne_nil lb fmtDate fmtMoney fmtPhone dom s hne hr) hrs

/-- Witness for C6 with two one-message slices: the second slice is
prefixed by exactly one line terminator. -/
theorem chatFileAfterSlices_separation_witness :
    chatFileAfterSlices ['\n'] sampleFmtDate sampleFmtMoney sampleFmtPhone
        []
        [(⟨[⟨1, 2, 3, 0, 0, 0, Option.none, [], [],
            ActionContent.noneType, ⟨MediaContent.noneType, 0⟩⟩],
          samplePeers⟩ : MessagesSlice),
          (⟨[⟨4, 5, 6, 0, 0, 0, Option.none, [], [],
            ActionContent.noneType, ⟨MediaContent.noneType, 0⟩⟩],
          samplePeers⟩ : MessagesSlice)]
      = some (("ID: 1\nDate: 2\nEdited: 3\n").toList
        ++ ([("ID: 4\nDate: 5\nEdited: 6\n").toList].map
          (fun x => ['\n'] ++ x)).flatten) :=
  chatFileAfterSlices_separation ['\n'] sampleFmtDate sampleFmtMoney
    sampleFmtPhone []
    (⟨[⟨1, 2, 3, 0, 0, 0, Option.none, [], [],
        ActionContent.noneType, ⟨MediaContent.noneType, 0⟩⟩],
      samplePeers⟩ : MessagesSlice)
    [(⟨[⟨4, 5, 6, 0, 0, 0, Option.none, [], [],
        ActionContent.noneType, ⟨MediaContent.noneType, 0⟩⟩],
      samplePeers⟩ : MessagesSlice)]
    (("ID: 1\nDate: 2\nEdited: 3\n").toList)
    [("ID: 4\nDate: 5\nEdited: 6\n").toList]
    (by simp) (by decide) (by decide)

/-- C1 counterexample: a secure-values-sent message with a non-zero sender
id serializes with no "Actor" field at all — its field keys are exactly ID,
Date, Edited, Action, Value — so payment-sent and bot-allowed are not the
only action kinds that omit the actor field. -/
theorem secureValuesSent_no_actor_counterexample :
    (messageFields ['\n'] sampleFmtDate sampleFmtMoney sampleFmtPhone
        (⟨1, 2, 3, 7, 0, 0, Option.none, [], [],
          ActionContent.secureValuesSent [SecureValueType.Passport],
          ⟨MediaContent.noneType, 0⟩⟩ : Message) samplePeers []).map
        (fun l => l.map Prod.fst)
      = some [("ID").toList, ("Date").toList, ("Edited").toList,
          ("Action").toList, ("Value").toList]
    ∧ ("Actor").toList ∉ [("ID").toList, ("Date").toList, ("Edited").toList,
          ("Action").toList, ("Value").toList] :=
  ⟨by decide, by decide⟩

/-- Witness for C1 at a history-clear action message with sender id 7. -/
theorem messageFields_actor_first_witness :
    actionEmitsActor ActionContent.historyClear = true
      ∧ messageFields ['\n'] sampleFmtDate sampleFmtMoney sampleFmtPhone
          (⟨1, 2, 3, 7, 0, 0, Option.none, [], [],
            ActionContent.historyClear, ⟨MediaContent.noneType, 0⟩⟩
            : Message) samplePeers []
        = some [((("ID").toList), ("1").toList),
            ((("Date").toList), ("2").toList),
            ((("Edited").toList), ("3").toList),
            ((("Actor").toList), ("(unknown user)").toList),
            ((("Action").toList), ("Clear history").toList)]
      ∧ ([((("ID").toList), ("1").toList),
            ((("Date").toList), ("2").toList),
            ((("Edited").toList), ("3").toList),
            ((("Actor").toList), ("(unknown user)").toList),
            ((("Action").toList), ("Clear history").toList)]
          : List Field).take 4
        = [((("ID").toList), ("1").toList),
            ((("Date").toList), ("2").toList),
            ((("Edited").toList), ("3").toList),
            ((("Actor").toList), ("(unknown user)").toList)] :=
  ⟨rfl, by decide,
    messageFields_actor_first ['\n'] sampleFmtDate sampleFmtMoney
      sampleFmtPhone
      (⟨1, 2, 3, 7, 0, 0, Option.none, [], [], ActionContent.historyClear,
        ⟨MediaContent.noneType, 0⟩⟩ : Message) samplePeers []
      [((("ID").toList), ("1").toList),
        ((("Date").toList), ("2").toList),
        ((("Edited").toList), ("3").toList),
        ((("Actor").toList), ("(unknown user)").toList),
        ((("Action").toList), ("Clear history").toList)]
      rfl (by decide) (by decide)⟩

end ExportText
